import Mathlib

/-!
# Relay server of the ACE linker SDK

A shallow embedding of `linker/rpcserver/grpcServer.go`: the per-stream loop
`Server.Relay` with its helpers `sendReceipt`, `processOnRelay` and
`processOnRelayComplete`.

The gRPC stream is an input of the model: the results that successive calls of
`stream.Recv()` return and the results of successive calls of `stream.Send`.
The four callback slots of `Server` are arbitrary application code; a call of
one of them is recorded as an event of the run, carrying the envelope as it is
at the moment of the call.  Every `Recv` yields a freshly allocated envelope
(as the generated gRPC stub does), so the in-place writes of the Go code are
functional record updates here.  Logging is left out, except `log.Fatal`,
which ends the process.
-/

namespace Relay

/-! ## Data model -/

/-- Modelled from the spec: `rpc.StepPattern`, the routing target of an
envelope (the generated protobuf type is not among the sources). -/
structure StepPattern where
  ServiceName : String
  ServiceVersion : String
deriving DecidableEq, Repr

/-- Modelled from the spec: `messaging.Payload`, an opaque body of bytes. -/
structure Payload where
  Body : List Nat
deriving DecidableEq, Repr

/-- Modelled from the spec: `messaging.BusinessMessage`, the opaque business
payload of an envelope. -/
structure BusinessMessage where
  Payload : Option Payload
deriving DecidableEq, Repr

/-- Modelled from the spec: the enum `rpc.Message_ErrorType`, with `NONE = 0`
and `PROCESSING = 1`; every further kind is `OTHER code`. -/
inductive ErrorType where
  | NONE
  | PROCESSING
  | OTHER (code : Nat)
deriving DecidableEq, Repr

/-- A Go `map[string]string` that is not nil: the entries, looked up from the
front. -/
abbrev GoMap := List (String × String)

/-- Modelled from the spec: `rpc.Message`, the envelope.  The fields are those
of the wire format, under the names the Go code uses; `MetaData = none` is the
nil map.  `SequenceTerm` and `SequenceUpperBound` are `uint64` on the wire. -/
structure Message where
  UUID : String
  Parent_UUID : String
  Pattern : Option StepPattern
  BusinessMessage : Option BusinessMessage
  SequenceTerm : Nat
  SequenceUpperBound : Nat
  ErrorType : ErrorType
  Consumption_ID : String
  MetaData : Option GoMap
deriving DecidableEq, Repr

/-- Modelled from the spec: `rpc.Receipt`. -/
structure Receipt where
  IsOk : Bool
  Error : String
deriving DecidableEq, Repr

/-- A Go `error` other than `nil`, identified by the text of `Error()`. -/
structure GoError where
  text : String
deriving DecidableEq, Repr

/-- What one call of `stream.Recv()` returns: an envelope and a nil error, the
sentinel `io.EOF`, or another error. -/
inductive RecvResult where
  | msg (m : Message)
  | eof
  | err (e : GoError)
deriving DecidableEq, Repr

/-- The inbound stream as the server sees it: the results of the successive
`Recv` calls and of the successive `Send` calls (`none` is a nil error; a
`Send` beyond the end of the list succeeds). -/
structure Stream where
  recvs : List RecvResult
  sends : List (Option GoError)
deriving DecidableEq, Repr

/-- The observable steps of one run of `Server.Relay`. -/
inductive Event where
  | recv (r : RecvResult)
  | send (receipt : Receipt) (result : Option GoError)
  | onRelay (m : Message)
  | onRelayComplete (m : Message)
  | onRelayCompleteError (last : Option Message) (e : GoError)
  | fatal
deriving DecidableEq, Repr

/-- How a run of `Server.Relay` ends: it returns an error value (`none` is
nil), `log.Fatal` ends the process, or the loop waits in a `Recv` the stream
never answers. -/
inductive Outcome where
  | returned (err : Option GoError)
  | fatal
  | blocked
deriving DecidableEq, Repr

/-- A run: the events in order and the way it ends. -/
structure Run where
  trace : List Event
  outcome : Outcome
deriving DecidableEq, Repr

/-! ## Machine integers and maps -/

/-- Number of values of a `uint64`; arithmetic on a `uint64` is modulo it. -/
def uint64Size : Nat := 2 ^ 64

/-- The Go conversion `int(x)` of a `uint64` on a platform with 64-bit `int`:
two's complement reinterpretation. -/
def toInt (x : Nat) : Int :=
  if x % uint64Size < 2 ^ 63 then ((x % uint64Size : Nat) : Int)
  else ((x % uint64Size : Nat) : Int) - (uint64Size : Int)

/-- The Go library function `strconv.Itoa`: the decimal text of an `int`. -/
def Itoa (i : Int) : String :=
  if i < 0 then "-" ++ Nat.repr i.natAbs else Nat.repr i.toNat

/-- Map read `m[k]` with presence flag. -/
def GoMap.get (k : String) : GoMap → Option String
  | [] => none
  | (k', v') :: rest => if k' = k then some v' else GoMap.get k rest

/-- Map write `m[k] = v`: replaces the entry of `k` or adds one. -/
def GoMap.set (k v : String) : GoMap → GoMap
  | [] => [(k, v)]
  | (k', v') :: rest =>
    if k' = k then (k, v) :: rest else (k', v') :: GoMap.set k v rest

/-- Getter `GetMetaData()` of a non-nil envelope. -/
def Message.GetMetaData (m : Message) : Option GoMap := m.MetaData

/-- Getter `GetParent_UUID()` of a non-nil envelope. -/
def Message.GetParent_UUID (m : Message) : String := m.Parent_UUID

/-- Getter `GetSequenceTerm()` of a non-nil envelope. -/
def Message.GetSequenceTerm (m : Message) : Nat := m.SequenceTerm

/-- The statement `m.MetaData[k] = v`; the callers have made the map non-nil
before. -/
def Message.setMetaData (m : Message) (k v : String) : Message :=
  { m with MetaData := some (GoMap.set k v (m.MetaData.getD [])) }

/-- Read of a metadata key of an envelope; `none` when the map is nil or has
no such key. -/
def Message.metaGet (m : Message) (k : String) : Option String :=
  match m.MetaData with
  | none => none
  | some kv => GoMap.get k kv

/-! ## The server -/

namespace Server

/-- `Server.processOnRelayComplete` (grpcServer.go:56-78).  The flag of the
result says whether `log.Fatal` was reached. -/
def processOnRelayComplete (last : Option Message) (msgCount : Nat) :
    List Event × Bool :=
  match last with
  | some last =>
    let last := { last with SequenceUpperBound := msgCount }
    let last :=
      if msgCount > 1 then
        let last :=
          if last.GetMetaData = none then { last with MetaData := some [] }
          else last
        let last := last.setMetaData "SequenceUUID" last.GetParent_UUID
        let last := last.setMetaData "SequenceTerm" (Itoa (toInt msgCount))
        last.setMetaData "SequenceUpperBound" (Itoa (toInt msgCount))
      else last
    ([Event.onRelayComplete last], false)
  | none => ([Event.fatal], true)

/-- `Server.sendReceipt` (grpcServer.go:79-90): one `Send`; its error is
logged and dropped. -/
def sendReceipt (sendResult : Option GoError) (isOK : Bool) : List Event :=
  let receipt : Receipt := { IsOk := isOK, Error := "" }
  [Event.send receipt sendResult]

/-- `Server.processOnRelay` (grpcServer.go:92-104).  The parameter `msg` is
not used by the Go function either. -/
def processOnRelay (_msg : Message) (last : Option Message) (msgCount : Nat) :
    List Event :=
  match last with
  | some last =>
    let last :=
      if msgCount > 1 then
        let last :=
          if last.GetMetaData = none then { last with MetaData := some [] }
          else last
        let last := last.setMetaData "SequenceUUID" last.GetParent_UUID
        last.setMetaData "SequenceTerm" (Itoa (toInt last.GetSequenceTerm))
      else last
    [Event.onRelay last]
  | none => []

/-- The loop of `Server.Relay` (grpcServer.go:115-143), from the loop state
`msgCount`, `last`, over the remaining results of the stream. -/
def relayLoop : List RecvResult → List (Option GoError) → Nat →
    Option Message → Run
  | [], _, _, _ => { trace := [], outcome := Outcome.blocked }
  | RecvResult.eof :: _, _, msgCount, last =>
    let done := processOnRelayComplete last msgCount
    { trace := Event.recv RecvResult.eof :: done.1,
      outcome := if done.2 then Outcome.fatal else Outcome.returned none }
  | RecvResult.err recErr :: _, _, _, last =>
    { trace := [Event.recv (RecvResult.err recErr),
                Event.onRelayCompleteError last recErr],
      outcome := Outcome.returned (some recErr) }
  | RecvResult.msg inMsg :: rest, sends, msgCount, last =>
    -- here recErr is nil
    let isOK := true
    let sent := sendReceipt (sends.headD none) isOK
    if isOK then
      let msg := inMsg
      let msgCount := (msgCount + 1) % uint64Size
      let msg := { msg with SequenceTerm := msgCount }
      let relayed := processOnRelay msg last msgCount
      let run := relayLoop rest sends.tail msgCount (some msg)
      { trace := Event.recv (RecvResult.msg inMsg) :: (sent ++ relayed ++ run.trace),
        outcome := run.outcome }
    else
      let run := relayLoop rest sends.tail msgCount last
      { trace := Event.recv (RecvResult.msg inMsg) :: (sent ++ run.trace),
        outcome := run.outcome }

/-- `Server.Relay` (grpcServer.go:107-144): the loop started with
`msgCount = 0` and no pending envelope. -/
def Relay (stream : Stream) : Run :=
  relayLoop stream.recvs stream.sends 0 none

end Server

/-! ## Observations of a run -/

/-- The envelope of an `OnRelay` call. -/
def Event.relayArg : Event → Option Message
  | Event.onRelay m => some m
  | _ => none

/-- The envelope of an `OnRelayComplete` call. -/
def Event.completeArg : Event → Option Message
  | Event.onRelayComplete m => some m
  | _ => none

/-- The arguments of an `OnRelayCompleteError` call. -/
def Event.completeErrorArgs : Event → Option (Option Message × GoError)
  | Event.onRelayCompleteError l e => some (l, e)
  | _ => none

/-- The receipt of a `Send` call. -/
def Event.receiptArg : Event → Option Receipt
  | Event.send r _ => some r
  | _ => none

/-- The result of a `Recv` call. -/
def Event.recvResult : Event → Option RecvResult
  | Event.recv r => some r
  | _ => none

/-- The envelope a callback is called with, if the event is such a call. -/
def Event.envelope : Event → Option Message
  | Event.onRelay m => some m
  | Event.onRelayComplete m => some m
  | Event.onRelayCompleteError l _ => l
  | _ => none

/-- A stream operation as the peer sees it. -/
inductive StreamOp where
  | recv (r : RecvResult)
  | send (receipt : Receipt)
deriving DecidableEq, Repr

/-- The stream operation of a `Recv` or `Send` event. -/
def Event.streamOp : Event → Option StreamOp
  | Event.recv r => some (StreamOp.recv r)
  | Event.send r _ => some (StreamOp.send r)
  | _ => none

/-- The envelopes handed to `OnRelay`, in call order. -/
def onRelayCalls (tr : List Event) : List Message :=
  tr.filterMap Event.relayArg

/-- The envelopes handed to `OnRelayComplete`, in call order. -/
def onRelayCompleteCalls (tr : List Event) : List Message :=
  tr.filterMap Event.completeArg

/-- The arguments of the calls of `OnRelayCompleteError`, in call order. -/
def onRelayCompleteErrorCalls (tr : List Event) : List (Option Message × GoError) :=
  tr.filterMap Event.completeErrorArgs

/-- The receipts passed to `stream.Send`, in call order. -/
def receiptsSent (tr : List Event) : List Receipt :=
  tr.filterMap Event.receiptArg

/-- The results of the `Recv` calls made, in call order. -/
def recvCalls (tr : List Event) : List RecvResult :=
  tr.filterMap Event.recvResult

/-- The stream operations (`Recv` and `Send`) of a run, callbacks left out. -/
def streamOps (tr : List Event) : List StreamOp :=
  tr.filterMap Event.streamOp

/-- The envelopes handed to any of the three relay callbacks, in call order. -/
def handedOver (tr : List Event) : List Message :=
  tr.filterMap Event.envelope

/-- The envelopes a stream delivers before its first end-of-stream or error. -/
def receivedMsgs : List RecvResult → List Message
  | RecvResult.msg m :: rest => m :: receivedMsgs rest
  | _ => []

/-- How a stream goes on after its envelopes: it falls silent, signals
`io.EOF`, or fails with another error. -/
inductive StreamEnd where
  | silent
  | eof
  | err (e : GoError)
deriving DecidableEq, Repr

/-- The first result of a stream that is not an envelope. -/
def streamEnd : List RecvResult → StreamEnd
  | [] => StreamEnd.silent
  | RecvResult.msg _ :: rest => streamEnd rest
  | RecvResult.eof :: _ => StreamEnd.eof
  | RecvResult.err e :: _ => StreamEnd.err e

/-- The `Recv` call that meets the end of the stream, if the stream has one. -/
def StreamEnd.recvs : StreamEnd → List RecvResult
  | StreamEnd.silent => []
  | StreamEnd.eof => [RecvResult.eof]
  | StreamEnd.err e => [RecvResult.err e]

/-- The newest of the envelopes `l`, `ms`. -/
def newest (l : Message) : List Message → Message
  | [] => l
  | m :: ms => newest m ms

/-- The error a stream fails with, if it does. -/
def StreamEnd.failure : StreamEnd → Option GoError
  | StreamEnd.err e => some e
  | _ => none

/-- The receipt `Server.Relay` acknowledges an envelope with. -/
def okReceipt : Receipt := { IsOk := true, Error := "" }

/-- Stream operations in strict alternation: each envelope is received and
acknowledged before the next `Recv`; the last `Recv` meets the end. -/
def alternating : List Message → StreamEnd → List StreamOp
  | [], fin => fin.recvs.map StreamOp.recv
  | m :: ms, fin =>
    StreamOp.recv (RecvResult.msg m) :: StreamOp.send okReceipt :: alternating ms fin

/-- An envelope without the three fields the relay server writes: what
identifies a received envelope in a callback. -/
def Message.received (m : Message) : Message :=
  { m with SequenceTerm := 0, SequenceUpperBound := 0, MetaData := none }

/-- The envelope received in position `k` (counted from 1), as it is when the
loop hands it to `OnRelay` during iteration `k + 1`. -/
def relayedForm (m : Message) (k : Nat) : Message :=
  if 1 < (k + 1) % uint64Size then
    { m with
      SequenceTerm := k % uint64Size,
      MetaData := some (GoMap.set "SequenceTerm" (Itoa (toInt (k % uint64Size)))
        (GoMap.set "SequenceUUID" m.Parent_UUID (m.MetaData.getD []))) }
  else { m with SequenceTerm := k % uint64Size }

/-- The envelopes handed to `OnRelay` when `ms` are the envelopes received in
positions `k`, `k + 1`, ...: all but the newest. -/
def relaysFrom (k : Nat) : List Message → List Message
  | m :: m' :: rest => relayedForm m k :: relaysFrom (k + 1) (m' :: rest)
  | _ => []

/-- The last envelope of a stream of `n` envelopes, as it is when end-of-stream
hands it to `OnRelayComplete`. -/
def completedForm (m : Message) (n : Nat) : Message :=
  if 1 < n % uint64Size then
    { m with
      SequenceTerm := n % uint64Size,
      SequenceUpperBound := n % uint64Size,
      MetaData := some (GoMap.set "SequenceUpperBound" (Itoa (toInt (n % uint64Size)))
        (GoMap.set "SequenceTerm" (Itoa (toInt (n % uint64Size)))
          (GoMap.set "SequenceUUID" m.Parent_UUID (m.MetaData.getD [])))) }
  else { m with SequenceTerm := n % uint64Size, SequenceUpperBound := n % uint64Size }

/-- The envelope the closing callback gets when the stream ends with `fin`
after `n` envelopes, the newest being `m`: `OnRelayComplete` at end-of-stream,
`OnRelayCompleteError` at an error, none while the stream is silent. -/
def closingEnvelope (fin : StreamEnd) (m : Message) (n : Nat) : List Message :=
  match fin with
  | StreamEnd.silent => []
  | StreamEnd.eof => [completedForm m n]
  | StreamEnd.err _ => [{ m with SequenceTerm := n % uint64Size }]

/-- A stream that delivers the envelopes `ms` and then end-of-stream. -/
def cleanStream (ms : List Message) (sends : List (Option GoError)) : Stream :=
  { recvs := ms.map RecvResult.msg ++ [RecvResult.eof], sends := sends }

/-- A stream that delivers the envelopes `ms` and whose next `Recv` fails
with `e`. -/
def failingStream (ms : List Message) (e : GoError)
    (sends : List (Option GoError)) : Stream :=
  { recvs := ms.map RecvResult.msg ++ [RecvResult.err e], sends := sends }

/-- A stream of `2 ^ 64` equal envelopes and then end-of-stream: the counter
`msgCount` of the loop wraps around on the last of them. -/
def wrappingStream : Stream :=
  cleanStream (List.replicate uint64Size
    { UUID := "a", Parent_UUID := "p", Pattern := none, BusinessMessage := none,
      SequenceTerm := 0, SequenceUpperBound := 0, ErrorType := ErrorType.NONE,
      Consumption_ID := "100", MetaData := none }) []

/-- A stream of `2 ^ 63 + 1` equal envelopes and then end-of-stream: the
sequence term of the envelope in position `2 ^ 63` no longer fits a 64-bit
`int`. -/
def signWrapStream : Stream :=
  cleanStream (List.replicate (2 ^ 63 + 1)
    { UUID := "a", Parent_UUID := "p", Pattern := none, BusinessMessage := none,
      SequenceTerm := 0, SequenceUpperBound := 0, ErrorType := ErrorType.NONE,
      Consumption_ID := "100", MetaData := none }) []

/-- A plain envelope for examples. -/
def sampleMessage (id parent consumption : String) : Message :=
  { UUID := id, Parent_UUID := parent, Pattern := none, BusinessMessage := none,
    SequenceTerm := 0, SequenceUpperBound := 0, ErrorType := ErrorType.NONE,
    Consumption_ID := consumption, MetaData := none }

/-- An event without what `stream.Send` returned. -/
def Event.withoutSendResult : Event → Event
  | Event.send r _ => Event.send r none
  | ev => ev

/-! ## Registration -/

/-- Modelled from the spec: `rpc.ServiceInfo`, the name and version a service
registers with (the generated protobuf type is not among the sources). -/
structure ServiceInfo where
  ServiceName : String
  ServiceVersion : String
deriving DecidableEq, Repr

/-- One call of `Server.Registration`: the arguments of the calls of the
registration callback, and the two values returned. -/
structure RegistrationRun where
  calls : List ServiceInfo
  receipt : Receipt
  err : Option GoError
deriving DecidableEq, Repr

/-- `Server.Registration` (grpcServer.go:43-54).  The callback slot
`OnRegistrationComplete` is a parameter: what the application code returns for
a `ServiceInfo`, `none` being nil; `err.Error()` is the text of the error. -/
def Server.Registration (OnRegistrationComplete : ServiceInfo → Option GoError)
    (serviceInfo : ServiceInfo) : RegistrationRun :=
  let err := OnRegistrationComplete serviceInfo
  match err with
  | some err =>
    { calls := [serviceInfo], receipt := { IsOk := false, Error := err.text },
      err := some err }
  | none =>
    { calls := [serviceInfo], receipt := { IsOk := true, Error := "" }, err := none }

/-! ## The relay link -/

/-- Modelled from the spec: the error a registered processor returns, either a
processing error (`NewProcessingError`, section 7 of the specification) or a
raw one; the type is declared in the package `linker`, whose sources are
missing. -/
inductive ProcessorError where
  | processing (cause : GoError)
  | raw (cause : GoError)
deriving DecidableEq, Repr

/-- Modelled from the spec: what one invocation of the registered processor
`(context, businessMessage, producer) → error` does (section 4.2, steps 2 to 4,
and section 4.3).  Either it returns no error, having pushed zero or more
envelopes through the producer (step 3), or it returns an error, and then no
forwarded business result exists (step 4).  The processor type of the package
`linker` is missing. -/
inductive ProcessorResult where
  | forwarded (produced : List Message)
  | failed (err : ProcessorError)
deriving DecidableEq, Repr

/-- The envelopes the processor has pushed through the producer, in order. -/
def ProcessorResult.produced : ProcessorResult → List Message
  | ProcessorResult.forwarded produced => produced
  | ProcessorResult.failed _ => []

/-- The error the processor returns; `none` is nil. -/
def ProcessorResult.err : ProcessorResult → Option ProcessorError
  | ProcessorResult.forwarded _ => none
  | ProcessorResult.failed err => some err

/-- The steps of one call of `Link.OnRelay` on the outbound side. -/
inductive LinkEvent where
  | openStream (source : Message)
  | process (businessMessage : Option BusinessMessage)
  | send (m : Message)
  | closeSend
deriving DecidableEq, Repr

/-- One call of `Link.OnRelay`: the steps in order, and the inbound envelope as
the call leaves it. -/
structure LinkRun where
  trace : List LinkEvent
  envelope : Message
deriving DecidableEq, Repr

/-- Modelled from the spec: `Link.OnRelay` (section 4.2, steps 1 to 5), whose
source file `linker.go` is missing; only `linker_test.go` is among the
sources.  The outbound stream opens and sends without transport failure, as
with the mock client of the tests.  Step 1 opens the stream seeded with the
envelope, step 2 invokes the processor, whose producer calls are sends on the
stream, step 4 flags the envelope and sends it when the error is a processing
error, step 5 closes the send side. -/
def Link.OnRelay (MsgProcessor : Option BusinessMessage → ProcessorResult)
    (envelope : Message) : LinkRun :=
  let result := MsgProcessor envelope.BusinessMessage
  let steps := [LinkEvent.openStream envelope, LinkEvent.process envelope.BusinessMessage] ++
    result.produced.map LinkEvent.send
  match result.err with
  | some (ProcessorError.processing _) =>
    let flagged := { envelope with ErrorType := ErrorType.PROCESSING }
    { trace := steps ++ [LinkEvent.send flagged, LinkEvent.closeSend], envelope := flagged }
  | _ =>
    { trace := steps ++ [LinkEvent.closeSend], envelope := envelope }

/-- The envelope of a send on the outbound stream. -/
def LinkEvent.sentArg : LinkEvent → Option Message
  | LinkEvent.send m => some m
  | _ => none

/-- The envelopes sent on the outbound stream, in order. -/
def sentOn (tr : List LinkEvent) : List Message :=
  tr.filterMap LinkEvent.sentArg

/-- Number of times the send side of the outbound stream is closed. -/
def closeSendCalls (tr : List LinkEvent) : Nat :=
  tr.count LinkEvent.closeSend

/-- The source envelopes of the outbound streams opened. -/
def openedWith (tr : List LinkEvent) : List Message :=
  tr.filterMap (fun ev => match ev with
    | LinkEvent.openStream m => some m
    | _ => none)

/-- The business messages the processor is invoked with. -/
def processorCalls (tr : List LinkEvent) : List (Option BusinessMessage) :=
  tr.filterMap (fun ev => match ev with
    | LinkEvent.process bm => some bm
    | _ => none)

/-- The envelope of the tests of the link: payload "test", pattern
"abc"/"1.0.0", and the given consumption id. -/
def testMessage (consumption : String) : Message :=
  { UUID := "", Parent_UUID := "",
    Pattern := some { ServiceName := "abc", ServiceVersion := "1.0.0" },
    BusinessMessage := some { Payload := some { Body := [116, 101, 115, 116] } },
    SequenceTerm := 0, SequenceUpperBound := 0, ErrorType := ErrorType.NONE,
    Consumption_ID := consumption, MetaData := none }

/-- The processor `testProc` of linker_test.go: pushes nothing, returns nil. -/
def testProc (_bm : Option BusinessMessage) : ProcessorResult :=
  ProcessorResult.forwarded []

/-- The processor `testProcReturnProcessingError` of linker_test.go: pushes
nothing, returns a processing error. -/
def testProcReturnProcessingError (_bm : Option BusinessMessage) : ProcessorResult :=
  ProcessorResult.failed (ProcessorError.processing { text := "test-processing-error" })

/-! ## The loop state and the guard of `processOnRelay` -/

/-- The loop state `(msgCount, last)` of `Server.Relay` at the start of the
iteration that follows the receipt of the envelopes `ms`, when the loop was in
the state `(msgCount, last)` before them: the assignments of
grpcServer.go:137-141, one received envelope at a time. -/
def loopState : Nat → Option Message → List Message → Nat × Option Message
  | msgCount, last, [] => (msgCount, last)
  | msgCount, _, inMsg :: rest =>
    loopState ((msgCount + 1) % uint64Size)
      (some { inMsg with SequenceTerm := (msgCount + 1) % uint64Size }) rest

/-- The function `Server.processOnRelay` with the guard `msgCount > 1` removed:
the metadata of a pending envelope is always updated before the dispatch. -/
def Server.processOnRelayUnguarded (_msg : Message) (last : Option Message)
    (_msgCount : Nat) : List Event :=
  match last with
  | some last =>
    let last :=
      if last.GetMetaData = none then { last with MetaData := some [] }
      else last
    let last := last.setMetaData "SequenceUUID" last.GetParent_UUID
    let last := last.setMetaData "SequenceTerm" (Itoa (toInt last.GetSequenceTerm))
    [Event.onRelay last]
  | none => []

/-- The loop of `Server.Relay` with `processOnRelayUnguarded` in the place of
`processOnRelay`. -/
def Server.relayLoopUnguarded : List RecvResult → List (Option GoError) → Nat →
    Option Message → Run
  | [], _, _, _ => { trace := [], outcome := Outcome.blocked }
  | RecvResult.eof :: _, _, msgCount, last =>
    let done := Server.processOnRelayComplete last msgCount
    { trace := Event.recv RecvResult.eof :: done.1,
      outcome := if done.2 then Outcome.fatal else Outcome.returned none }
  | RecvResult.err recErr :: _, _, _, last =>
    { trace := [Event.recv (RecvResult.err recErr),
                Event.onRelayCompleteError last recErr],
      outcome := Outcome.returned (some recErr) }
  | RecvResult.msg inMsg :: rest, sends, msgCount, last =>
    let isOK := true
    let sent := Server.sendReceipt (sends.headD none) isOK
    if isOK then
      let msg := inMsg
      let msgCount := (msgCount + 1) % uint64Size
      let msg := { msg with SequenceTerm := msgCount }
      let relayed := Server.processOnRelayUnguarded msg last msgCount
      let run := Server.relayLoopUnguarded rest sends.tail msgCount (some msg)
      { trace := Event.recv (RecvResult.msg inMsg) :: (sent ++ relayed ++ run.trace),
        outcome := run.outcome }
    else
      let run := Server.relayLoopUnguarded rest sends.tail msgCount last
      { trace := Event.recv (RecvResult.msg inMsg) :: (sent ++ run.trace),
        outcome := run.outcome }

/-- `Server.Relay` with the guard of `processOnRelay` removed. -/
def Server.RelayUnguarded (stream : Stream) : Run :=
  Server.relayLoopUnguarded stream.recvs stream.sends 0 none

/-! ## The loop, one iteration at a time -/

theorem relayLoop_msg (inMsg : Message) (rest : List RecvResult)
    (sends : List (Option GoError)) (c : Nat) (last : Option Message) :
    Server.relayLoop (RecvResult.msg inMsg :: rest) sends c last =
      { trace := Event.recv (RecvResult.msg inMsg) ::
          Event.send { IsOk := true, Error := "" } (sends.headD none) ::
          (Server.processOnRelay { inMsg with SequenceTerm := (c + 1) % uint64Size } last
              ((c + 1) % uint64Size) ++
            (Server.relayLoop rest sends.tail ((c + 1) % uint64Size)
              (some { inMsg with SequenceTerm := (c + 1) % uint64Size })).trace),
        outcome := (Server.relayLoop rest sends.tail ((c + 1) % uint64Size)
              (some { inMsg with SequenceTerm := (c + 1) % uint64Size })).outcome } := by
  simp [Server.relayLoop, Server.sendReceipt]

theorem processOnRelay_pending (msg l : Message) (k : Nat) :
    Server.processOnRelay msg (some { l with SequenceTerm := k % uint64Size })
        ((k + 1) % uint64Size) = [Event.onRelay (relayedForm l k)] := by
  unfold Server.processOnRelay relayedForm
  by_cases h : 1 < (k + 1) % uint64Size
  · cases hm : l.MetaData <;>
      simp [h, hm, Message.setMetaData, Message.GetMetaData, Message.GetParent_UUID,
        Message.GetSequenceTerm]
  · simp [h]

theorem processOnRelayComplete_pending (l : Message) (n : Nat) :
    Server.processOnRelayComplete (some { l with SequenceTerm := n % uint64Size })
        (n % uint64Size) = ([Event.onRelayComplete (completedForm l n)], false) := by
  unfold Server.processOnRelayComplete completedForm
  by_cases h : 1 < n % uint64Size
  · cases hm : l.MetaData <;>
      simp [h, hm, Message.setMetaData, Message.GetMetaData, Message.GetParent_UUID]
  · simp [h]

theorem relayLoop_nil (sends : List (Option GoError)) (c : Nat)
    (last : Option Message) :
    Server.relayLoop [] sends c last = { trace := [], outcome := Outcome.blocked } := by
  simp [Server.relayLoop]

theorem relayLoop_eof (rest : List RecvResult) (sends : List (Option GoError))
    (c : Nat) (last : Option Message) :
    Server.relayLoop (RecvResult.eof :: rest) sends c last =
      { trace := Event.recv RecvResult.eof :: (Server.processOnRelayComplete last c).1,
        outcome := if (Server.processOnRelayComplete last c).2 then Outcome.fatal
          else Outcome.returned none } := by
  simp [Server.relayLoop]

theorem relayLoop_err (e : GoError) (rest : List RecvResult)
    (sends : List (Option GoError)) (c : Nat) (last : Option Message) :
    Server.relayLoop (RecvResult.err e :: rest) sends c last =
      { trace := [Event.recv (RecvResult.err e), Event.onRelayCompleteError last e],
        outcome := Outcome.returned (some e) } := by
  simp [Server.relayLoop]

/-- The first iteration: nothing is pending, so nothing is dispatched. -/
theorem Relay_msg (m : Message) (rest : List RecvResult)
    (sends : List (Option GoError)) :
    Server.Relay { recvs := RecvResult.msg m :: rest, sends := sends } =
      { trace := Event.recv (RecvResult.msg m) ::
          Event.send { IsOk := true, Error := "" } (sends.headD none) ::
          (Server.relayLoop rest sends.tail (1 % uint64Size)
              (some { m with SequenceTerm := 1 % uint64Size })).trace,
        outcome := (Server.relayLoop rest sends.tail (1 % uint64Size)
              (some { m with SequenceTerm := 1 % uint64Size })).outcome } := by
  simp [Server.Relay, relayLoop_msg, Server.processOnRelay]

/-! ## Calls of `OnRelay` -/

theorem onRelayCalls_loop (recvs : List RecvResult) :
    ∀ (sends : List (Option GoError)) (k : Nat) (l : Message),
      onRelayCalls (Server.relayLoop recvs sends (k % uint64Size)
          (some { l with SequenceTerm := k % uint64Size })).trace =
        relaysFrom k (l :: receivedMsgs recvs) := by
  induction recvs with
  | nil => intro sends k l; simp [relayLoop_nil, onRelayCalls, receivedMsgs, relaysFrom]
  | cons r rest ih =>
    intro sends k l
    cases r with
    | eof =>
      rw [relayLoop_eof, processOnRelayComplete_pending]
      simp [onRelayCalls, receivedMsgs, relaysFrom, Event.relayArg]
    | err e =>
      rw [relayLoop_err]
      simp [onRelayCalls, receivedMsgs, relaysFrom, Event.relayArg]
    | msg m =>
      rw [relayLoop_msg]
      simp only [Nat.mod_add_mod]
      rw [processOnRelay_pending]
      have h := ih sends.tail (k + 1) m
      simp only [onRelayCalls] at h
      simp [onRelayCalls, receivedMsgs, relaysFrom, Event.relayArg, h]

theorem onRelayCalls_Relay (s : Stream) :
    onRelayCalls (Server.Relay s).trace = relaysFrom 1 (receivedMsgs s.recvs) := by
  obtain ⟨recvs, sends⟩ := s
  cases recvs with
  | nil => simp [Server.Relay, relayLoop_nil, onRelayCalls, receivedMsgs, relaysFrom]
  | cons r rest =>
    cases r with
    | eof =>
      simp [Server.Relay, relayLoop_eof, Server.processOnRelayComplete, onRelayCalls,
        receivedMsgs, relaysFrom, Event.relayArg]
    | err e =>
      simp [Server.Relay, relayLoop_err, onRelayCalls, receivedMsgs, relaysFrom,
        Event.relayArg]
    | msg m =>
      rw [Relay_msg]
      have h := onRelayCalls_loop rest sends.tail 1 m
      simp only [onRelayCalls] at h
      simp [onRelayCalls, receivedMsgs, Event.relayArg, h]

theorem relaysFrom_map {β : Type} (f g : Message → β)
    (hfg : ∀ m j, f (relayedForm m j) = g m) (ms : List Message) :
    ∀ k, (relaysFrom k ms).map f = ms.dropLast.map g := by
  induction ms with
  | nil => intro k; simp [relaysFrom]
  | cons m rest ih =>
    intro k
    cases rest with
    | nil => simp [relaysFrom]
    | cons m' rest' =>
      have h := ih (k + 1)
      simp [relaysFrom, hfg, h]

theorem relaysFrom_length (ms : List Message) :
    ∀ k, (relaysFrom k ms).length = ms.length - 1 := by
  induction ms with
  | nil => intro k; simp [relaysFrom]
  | cons m rest ih =>
    intro k
    cases rest with
    | nil => simp [relaysFrom]
    | cons m' rest' =>
      have h := ih (k + 1)
      simp [relaysFrom, h]

theorem relaysFrom_getElem? (ms : List Message) :
    ∀ k i, (relaysFrom k ms)[i]? =
      if i + 1 < ms.length then ms[i]?.map (fun m => relayedForm m (k + i)) else none := by
  induction ms with
  | nil => intro k i; simp [relaysFrom]
  | cons m rest ih =>
    intro k i
    cases rest with
    | nil => simp [relaysFrom]
    | cons m' rest' =>
      cases i with
      | zero => simp [relaysFrom]
      | succ j =>
        have h := ih (k + 1) j
        simp only [relaysFrom, List.getElem?_cons_succ, List.length_cons] at h ⊢
        rw [h]
        have e : k + 1 + j = k + (j + 1) := by omega
        simp [e]

/-! ## Completion calls and the outcome -/

theorem getLast?_cons_newest (m : Message) (ms : List Message) :
    (m :: ms).getLast? = some (newest m ms) := by
  induction ms generalizing m with
  | nil => simp [newest]
  | cons a rest ih => rw [List.getLast?_cons_cons, ih a]; simp [newest]

theorem completeCalls_loop (recvs : List RecvResult) :
    ∀ (sends : List (Option GoError)) (k : Nat) (l : Message),
      onRelayCompleteCalls (Server.relayLoop recvs sends (k % uint64Size)
          (some { l with SequenceTerm := k % uint64Size })).trace =
        if streamEnd recvs = StreamEnd.eof then
          [completedForm (newest l (receivedMsgs recvs)) (k + (receivedMsgs recvs).length)]
        else [] := by
  induction recvs with
  | nil =>
    intro sends k l
    simp [relayLoop_nil, onRelayCompleteCalls, streamEnd]
  | cons r rest ih =>
    intro sends k l
    cases r with
    | eof =>
      rw [relayLoop_eof, processOnRelayComplete_pending]
      simp [onRelayCompleteCalls, receivedMsgs, streamEnd, Event.completeArg, newest]
    | err e =>
      rw [relayLoop_err]
      simp [onRelayCompleteCalls, receivedMsgs, streamEnd, Event.completeArg]
    | msg m =>
      rw [relayLoop_msg]
      simp only [Nat.mod_add_mod]
      rw [processOnRelay_pending]
      have h := ih sends.tail (k + 1) m
      simp only [onRelayCompleteCalls] at h
      have e : k + 1 + (receivedMsgs rest).length = k + ((receivedMsgs rest).length + 1) := by
        omega
      simp [onRelayCompleteCalls, receivedMsgs, streamEnd, Event.completeArg, h, e, newest]

theorem completeErrorCalls_loop (recvs : List RecvResult) :
    ∀ (sends : List (Option GoError)) (k : Nat) (l : Message),
      onRelayCompleteErrorCalls (Server.relayLoop recvs sends (k % uint64Size)
          (some { l with SequenceTerm := k % uint64Size })).trace =
        ((streamEnd recvs).failure.map (fun e =>
          (some { newest l (receivedMsgs recvs) with
                  SequenceTerm := (k + (receivedMsgs recvs).length) % uint64Size }, e))).toList := by
  induction recvs with
  | nil =>
    intro sends k l
    simp [relayLoop_nil, onRelayCompleteErrorCalls, streamEnd, StreamEnd.failure]
  | cons r rest ih =>
    intro sends k l
    cases r with
    | eof =>
      rw [relayLoop_eof, processOnRelayComplete_pending]
      simp [onRelayCompleteErrorCalls, streamEnd, StreamEnd.failure, Event.completeErrorArgs]
    | err e =>
      rw [relayLoop_err]
      simp [onRelayCompleteErrorCalls, receivedMsgs, streamEnd, StreamEnd.failure,
        Event.completeErrorArgs, newest]
    | msg m =>
      rw [relayLoop_msg]
      simp only [Nat.mod_add_mod]
      rw [processOnRelay_pending]
      have h := ih sends.tail (k + 1) m
      simp only [onRelayCompleteErrorCalls] at h
      have e : k + 1 + (receivedMsgs rest).length = k + ((receivedMsgs rest).length + 1) := by
        omega
      simp [onRelayCompleteErrorCalls, receivedMsgs, streamEnd, Event.completeErrorArgs, h, e,
        newest]

theorem outcome_loop (recvs : List RecvResult) :
    ∀ (sends : List (Option GoError)) (k : Nat) (l : Message),
      (Server.relayLoop recvs sends (k % uint64Size)
          (some { l with SequenceTerm := k % uint64Size })).outcome =
        match streamEnd recvs with
        | StreamEnd.silent => Outcome.blocked
        | StreamEnd.eof => Outcome.returned none
        | StreamEnd.err e => Outcome.returned (some e) := by
  induction recvs with
  | nil => intro sends k l; simp [relayLoop_nil, streamEnd]
  | cons r rest ih =>
    intro sends k l
    cases r with
    | eof => rw [relayLoop_eof, processOnRelayComplete_pending]; simp [streamEnd]
    | err e => rw [relayLoop_err]; simp [streamEnd]
    | msg m =>
      rw [relayLoop_msg]
      simp only [Nat.mod_add_mod]
      have h := ih sends.tail (k + 1) m
      simp [streamEnd, h]

theorem receivedMsgs_append (ms : List Message) (rest : List RecvResult) :
    receivedMsgs (ms.map RecvResult.msg ++ rest) = ms ++ receivedMsgs rest := by
  induction ms with
  | nil => simp
  | cons m ms ih => simp [receivedMsgs, ih]

theorem streamEnd_append (ms : List Message) (rest : List RecvResult) :
    streamEnd (ms.map RecvResult.msg ++ rest) = streamEnd rest := by
  induction ms with
  | nil => simp
  | cons m ms ih => simp [streamEnd, ih]

theorem onRelayCompleteCalls_Relay (s : Stream) :
    onRelayCompleteCalls (Server.Relay s).trace =
      if streamEnd s.recvs = StreamEnd.eof then
        ((receivedMsgs s.recvs).getLast?.map
          (fun m => completedForm m (receivedMsgs s.recvs).length)).toList
      else [] := by
  obtain ⟨recvs, sends⟩ := s
  cases recvs with
  | nil => simp [Server.Relay, relayLoop_nil, onRelayCompleteCalls, streamEnd]
  | cons r rest =>
    cases r with
    | eof =>
      simp [Server.Relay, relayLoop_eof, Server.processOnRelayComplete,
        onRelayCompleteCalls, receivedMsgs, streamEnd, Event.completeArg]
    | err e =>
      simp [Server.Relay, relayLoop_err, onRelayCompleteCalls, streamEnd,
        Event.completeArg]
    | msg m =>
      rw [Relay_msg]
      have h := completeCalls_loop rest sends.tail 1 m
      simp only [onRelayCompleteCalls] at h
      have e : 1 + (receivedMsgs rest).length = (receivedMsgs rest).length + 1 := by omega
      simp [onRelayCompleteCalls, receivedMsgs, streamEnd, Event.completeArg, h, e,
        getLast?_cons_newest]

theorem onRelayCompleteErrorCalls_Relay (s : Stream) :
    onRelayCompleteErrorCalls (Server.Relay s).trace =
      ((streamEnd s.recvs).failure.map (fun e =>
        ((receivedMsgs s.recvs).getLast?.map (fun m =>
          { m with SequenceTerm := (receivedMsgs s.recvs).length % uint64Size }), e))).toList := by
  obtain ⟨recvs, sends⟩ := s
  cases recvs with
  | nil =>
    simp [Server.Relay, relayLoop_nil, onRelayCompleteErrorCalls, streamEnd,
      StreamEnd.failure]
  | cons r rest =>
    cases r with
    | eof =>
      simp [Server.Relay, relayLoop_eof, Server.processOnRelayComplete,
        onRelayCompleteErrorCalls, streamEnd, StreamEnd.failure, Event.completeErrorArgs]
    | err e =>
      simp [Server.Relay, relayLoop_err, onRelayCompleteErrorCalls, receivedMsgs, streamEnd,
        StreamEnd.failure, Event.completeErrorArgs]
    | msg m =>
      rw [Relay_msg]
      have h := completeErrorCalls_loop rest sends.tail 1 m
      simp only [onRelayCompleteErrorCalls] at h
      have e : 1 + (receivedMsgs rest).length = (receivedMsgs rest).length + 1 := by omega
      simp [onRelayCompleteErrorCalls, receivedMsgs, streamEnd, Event.completeErrorArgs, h, e,
        getLast?_cons_newest]

theorem outcome_Relay (s : Stream) :
    (Server.Relay s).outcome =
      match streamEnd s.recvs with
      | StreamEnd.silent => Outcome.blocked
      | StreamEnd.eof =>
        if receivedMsgs s.recvs = [] then Outcome.fatal else Outcome.returned none
      | StreamEnd.err e => Outcome.returned (some e) := by
  obtain ⟨recvs, sends⟩ := s
  cases recvs with
  | nil => simp [Server.Relay, relayLoop_nil, streamEnd]
  | cons r rest =>
    cases r with
    | eof =>
      simp [Server.Relay, relayLoop_eof, Server.processOnRelayComplete, receivedMsgs,
        streamEnd]
    | err e => simp [Server.Relay, relayLoop_err, streamEnd]
    | msg m =>
      rw [Relay_msg]
      have h := outcome_loop rest sends.tail 1 m
      simp only [h, streamEnd, receivedMsgs]
      cases streamEnd rest <;> simp

/-! ## Stream operations -/

theorem streamOps_processOnRelay (msg : Message) (last : Option Message) (c : Nat) :
    streamOps (Server.processOnRelay msg last c) = [] := by
  cases last <;> simp [Server.processOnRelay, streamOps, Event.streamOp]

theorem streamOps_loop (recvs : List RecvResult) :
    ∀ (sends : List (Option GoError)) (c : Nat) (last : Option Message),
      streamOps (Server.relayLoop recvs sends c last).trace =
        alternating (receivedMsgs recvs) (streamEnd recvs) := by
  induction recvs with
  | nil =>
    intro sends c last
    simp [relayLoop_nil, streamOps, receivedMsgs, streamEnd, alternating, StreamEnd.recvs]
  | cons r rest ih =>
    intro sends c last
    cases r with
    | eof =>
      rw [relayLoop_eof]
      cases last <;>
        simp [Server.processOnRelayComplete, streamOps, receivedMsgs, streamEnd, alternating,
          StreamEnd.recvs, Event.streamOp]
    | err e =>
      rw [relayLoop_err]
      simp [streamOps, receivedMsgs, streamEnd, alternating, StreamEnd.recvs, Event.streamOp]
    | msg m =>
      rw [relayLoop_msg]
      have h := ih sends.tail ((c + 1) % uint64Size)
        (some { m with SequenceTerm := (c + 1) % uint64Size })
      have hp := streamOps_processOnRelay { m with SequenceTerm := (c + 1) % uint64Size } last
        ((c + 1) % uint64Size)
      simp only [streamOps] at h hp
      simp [streamOps, receivedMsgs, streamEnd, alternating, Event.streamOp, h, hp, okReceipt]

theorem receipts_alternating (ms : List Message) (fin : StreamEnd) :
    (alternating ms fin).filterMap
        (fun op => match op with
          | StreamOp.send r => some r
          | StreamOp.recv _ => none) =
      List.replicate ms.length okReceipt := by
  induction ms with
  | nil => cases fin <;> simp [alternating, StreamEnd.recvs]
  | cons m ms ih => simp [alternating, ih, List.replicate_succ]

theorem receiptsSent_eq (tr : List Event) :
    receiptsSent tr = (streamOps tr).filterMap
        (fun op => match op with
          | StreamOp.send r => some r
          | StreamOp.recv _ => none) := by
  induction tr with
  | nil => simp [receiptsSent, streamOps]
  | cons ev rest ih =>
    simp only [receiptsSent, streamOps] at ih ⊢
    cases ev <;> simp [Event.receiptArg, Event.streamOp, ih]

theorem receiptsSent_loop (recvs : List RecvResult) (sends : List (Option GoError))
    (c : Nat) (last : Option Message) :
    receiptsSent (Server.relayLoop recvs sends c last).trace =
      List.replicate (receivedMsgs recvs).length okReceipt := by
  rw [receiptsSent_eq, streamOps_loop, receipts_alternating]

theorem recvs_alternating (ms : List Message) (fin : StreamEnd) :
    (alternating ms fin).filterMap
        (fun op => match op with
          | StreamOp.recv r => some r
          | StreamOp.send _ => none) =
      ms.map RecvResult.msg ++ fin.recvs := by
  induction ms with
  | nil => cases fin <;> simp [alternating, StreamEnd.recvs]
  | cons m ms ih => simp [alternating, ih]

theorem recvCalls_eq (tr : List Event) :
    recvCalls tr = (streamOps tr).filterMap
        (fun op => match op with
          | StreamOp.recv r => some r
          | StreamOp.send _ => none) := by
  induction tr with
  | nil => simp [recvCalls, streamOps]
  | cons ev rest ih =>
    simp only [recvCalls, streamOps] at ih ⊢
    cases ev <;> simp [Event.recvResult, Event.streamOp, ih]

theorem recvCalls_loop (recvs : List RecvResult) (sends : List (Option GoError))
    (c : Nat) (last : Option Message) :
    recvCalls (Server.relayLoop recvs sends c last).trace =
      (receivedMsgs recvs).map RecvResult.msg ++ (streamEnd recvs).recvs := by
  rw [recvCalls_eq, streamOps_loop, recvs_alternating]

/-- In the full trace a receipt with `isOk = true` directly follows every
received envelope: no callback runs in between. -/
theorem receipt_follows_recv (recvs : List RecvResult) :
    ∀ (sends : List (Option GoError)) (c : Nat) (last : Option Message) (i : Nat)
      (m : Message),
      (Server.relayLoop recvs sends c last).trace[i]? = some (Event.recv (RecvResult.msg m)) →
      ∃ res, (Server.relayLoop recvs sends c last).trace[i + 1]? =
        some (Event.send okReceipt res) := by
  induction recvs with
  | nil => intro sends c last i m h; simp [relayLoop_nil] at h
  | cons r rest ih =>
    intro sends c last i m h
    cases r with
    | eof =>
      rw [relayLoop_eof] at h
      cases last with
      | none =>
        simp only [Server.processOnRelayComplete] at h
        match i, h with
        | 0, h => simp at h
        | 1, h => simp at h
        | j + 2, h => simp at h
      | some l =>
        simp only [Server.processOnRelayComplete] at h
        match i, h with
        | 0, h => simp at h
        | 1, h => simp at h
        | j + 2, h => simp at h
    | err e =>
      rw [relayLoop_err] at h
      match i, h with
      | 0, h => simp at h
      | 1, h => simp at h
      | j + 2, h => simp at h
    | msg m' =>
      rw [relayLoop_msg] at h ⊢
      match i, h with
      | 0, _ => exact ⟨sends.headD none, by simp [okReceipt]⟩
      | 1, h => simp at h
      | j + 2, h =>
        cases last with
        | none =>
          simp only [Server.processOnRelay, List.nil_append, List.getElem?_cons_succ] at h ⊢
          exact ih _ _ _ j m h
        | some l =>
          simp only [Server.processOnRelay, List.singleton_append,
            List.getElem?_cons_succ] at h ⊢
          match j, h with
          | 0, h => simp at h
          | j' + 1, h =>
            simp only [List.getElem?_cons_succ] at h ⊢
            exact ih _ _ _ j' m h

/-! ## All envelopes handed to callbacks -/

theorem handedOver_loop (recvs : List RecvResult) :
    ∀ (sends : List (Option GoError)) (k : Nat) (l : Message),
      handedOver (Server.relayLoop recvs sends (k % uint64Size)
          (some { l with SequenceTerm := k % uint64Size })).trace =
        relaysFrom k (l :: receivedMsgs recvs) ++
          closingEnvelope (streamEnd recvs) (newest l (receivedMsgs recvs))
            (k + (receivedMsgs recvs).length) := by
  induction recvs with
  | nil =>
    intro sends k l
    simp [relayLoop_nil, handedOver, receivedMsgs, streamEnd, relaysFrom, closingEnvelope]
  | cons r rest ih =>
    intro sends k l
    cases r with
    | eof =>
      rw [relayLoop_eof, processOnRelayComplete_pending]
      simp [handedOver, receivedMsgs, streamEnd, relaysFrom, closingEnvelope, newest,
        Event.envelope]
    | err e =>
      rw [relayLoop_err]
      simp [handedOver, receivedMsgs, streamEnd, relaysFrom, closingEnvelope, newest,
        Event.envelope]
    | msg m =>
      rw [relayLoop_msg]
      simp only [Nat.mod_add_mod]
      rw [processOnRelay_pending]
      have h := ih sends.tail (k + 1) m
      simp only [handedOver] at h
      have e : k + 1 + (receivedMsgs rest).length = k + ((receivedMsgs rest).length + 1) := by
        omega
      simp [handedOver, receivedMsgs, streamEnd, relaysFrom, newest, Event.envelope, h, e]

theorem handedOver_Relay (s : Stream) :
    handedOver (Server.Relay s).trace =
      relaysFrom 1 (receivedMsgs s.recvs) ++
        (match (receivedMsgs s.recvs).getLast? with
          | some m => closingEnvelope (streamEnd s.recvs) m (receivedMsgs s.recvs).length
          | none => []) := by
  obtain ⟨recvs, sends⟩ := s
  cases recvs with
  | nil => simp [Server.Relay, relayLoop_nil, handedOver, receivedMsgs, relaysFrom]
  | cons r rest =>
    cases r with
    | eof =>
      simp [Server.Relay, relayLoop_eof, Server.processOnRelayComplete, handedOver,
        receivedMsgs, relaysFrom, Event.envelope]
    | err e =>
      simp [Server.Relay, relayLoop_err, handedOver, receivedMsgs, relaysFrom, Event.envelope]
    | msg m =>
      rw [Relay_msg]
      have h := handedOver_loop rest sends.tail 1 m
      simp only [handedOver] at h
      have e : 1 + (receivedMsgs rest).length = (receivedMsgs rest).length + 1 := by omega
      simp [handedOver, receivedMsgs, streamEnd, Event.envelope, h, e, getLast?_cons_newest]

theorem relayedForm_SequenceTerm (m : Message) (j : Nat) :
    (relayedForm m j).SequenceTerm = j % uint64Size := by
  unfold relayedForm
  split <;> rfl

theorem completedForm_SequenceTerm (m : Message) (n : Nat) :
    (completedForm m n).SequenceTerm = n % uint64Size := by
  unfold completedForm
  split <;> rfl

theorem completedForm_SequenceUpperBound (m : Message) (n : Nat) :
    (completedForm m n).SequenceUpperBound = n % uint64Size := by
  unfold completedForm
  split <;> rfl

theorem relayedForm_received (m : Message) (j : Nat) :
    (relayedForm m j).received = m.received := by
  unfold relayedForm Message.received
  split <;> rfl

theorem completedForm_received (m : Message) (n : Nat) :
    (completedForm m n).received = m.received := by
  unfold completedForm Message.received
  split <;> rfl

theorem relaysFrom_SequenceTerm (ms : List Message) :
    ∀ k, (relaysFrom k ms).map Message.SequenceTerm =
      (List.range' k (ms.length - 1)).map (fun j => j % uint64Size) := by
  induction ms with
  | nil => intro k; simp [relaysFrom]
  | cons m rest ih =>
    intro k
    cases rest with
    | nil => simp [relaysFrom]
    | cons m' rest' =>
      have h := ih (k + 1)
      simp only [List.length_cons, Nat.add_sub_cancel] at h
      simp [relaysFrom, relayedForm_SequenceTerm, List.range'_succ, h]

theorem closingEnvelope_SequenceTerm (fin : StreamEnd) (hfin : fin ≠ StreamEnd.silent)
    (m : Message) (n : Nat) :
    (closingEnvelope fin m n).map Message.SequenceTerm = [n % uint64Size] := by
  cases fin with
  | silent => exact absurd rfl hfin
  | eof => simp [closingEnvelope, completedForm_SequenceTerm]
  | err e => simp [closingEnvelope]

theorem receivedMsgs_cleanStream (ms : List Message) (sends : List (Option GoError)) :
    receivedMsgs (cleanStream ms sends).recvs = ms := by
  simp [cleanStream, receivedMsgs_append, receivedMsgs]

theorem streamEnd_cleanStream (ms : List Message) (sends : List (Option GoError)) :
    streamEnd (cleanStream ms sends).recvs = StreamEnd.eof := by
  simp [cleanStream, streamEnd_append, streamEnd]

theorem receivedMsgs_failingStream (ms : List Message) (e : GoError)
    (sends : List (Option GoError)) :
    receivedMsgs (failingStream ms e sends).recvs = ms := by
  simp [failingStream, receivedMsgs_append, receivedMsgs]

theorem streamEnd_failingStream (ms : List Message) (e : GoError)
    (sends : List (Option GoError)) :
    streamEnd (failingStream ms e sends).recvs = StreamEnd.err e := by
  simp [failingStream, streamEnd_append, streamEnd]

theorem mod_uint64Size_of_lt (n : Nat) (h : n < 2 ^ 64) : n % uint64Size = n :=
  Nat.mod_eq_of_lt h

/-! ## Maps and decimal texts -/

theorem GoMap.get_set_self (k v : String) (kv : GoMap) :
    GoMap.get k (GoMap.set k v kv) = some v := by
  induction kv with
  | nil => simp [GoMap.get, GoMap.set]
  | cons p rest ih =>
    obtain ⟨k', v'⟩ := p
    by_cases h : k' = k
    · simp [GoMap.get, GoMap.set, h]
    · simp [GoMap.get, GoMap.set, h, ih]

theorem GoMap.get_set_ne (k k' v : String) (kv : GoMap) (hne : k' ≠ k) :
    GoMap.get k' (GoMap.set k v kv) = GoMap.get k' kv := by
  induction kv with
  | nil => simp [GoMap.get, GoMap.set, Ne.symm hne]
  | cons p rest ih =>
    obtain ⟨k1, v1⟩ := p
    by_cases h : k1 = k
    · have h1 : ¬ k1 = k' := fun h' => hne (h'.symm.trans h)
      simp [GoMap.get, GoMap.set, h, Ne.symm hne, h1]
    · by_cases h2 : k1 = k'
      · subst h2
        simp [GoMap.get, GoMap.set, h]
      · simp [GoMap.get, GoMap.set, h, h2, ih]

theorem toInt_of_lt (n : Nat) (h : n < 2 ^ 63) : toInt n = (n : Int) := by
  have h1 : n % uint64Size = n := Nat.mod_eq_of_lt (by unfold uint64Size; omega)
  unfold toInt
  rw [h1, if_pos h]

theorem Itoa_toInt_of_lt (n : Nat) (h : n < 2 ^ 63) : Itoa (toInt n) = Nat.repr n := by
  rw [toInt_of_lt n h]
  unfold Itoa
  have h0 : ¬ ((n : Int) < 0) := by omega
  rw [if_neg h0, Int.toNat_natCast]

theorem metaGet_relayedForm_term (m : Message) (k : Nat) (hk : 1 < (k + 1) % uint64Size) :
    (relayedForm m k).metaGet "SequenceTerm" = some (Itoa (toInt (k % uint64Size))) := by
  unfold relayedForm
  rw [if_pos hk]
  simp only [Message.metaGet]
  exact GoMap.get_set_self _ _ _

theorem metaGet_relayedForm_uuid (m : Message) (k : Nat) (hk : 1 < (k + 1) % uint64Size) :
    (relayedForm m k).metaGet "SequenceUUID" = some m.Parent_UUID := by
  unfold relayedForm
  rw [if_pos hk]
  simp only [Message.metaGet]
  rw [GoMap.get_set_ne _ _ _ _ (by decide)]
  exact GoMap.get_set_self _ _ _

theorem onRelayCalls_getElem? (s : Stream) (i : Nat) (m : Message)
    (hm : (receivedMsgs s.recvs)[i]? = some m)
    (hnext : i + 1 < (receivedMsgs s.recvs).length) :
    (onRelayCalls (Server.Relay s).trace)[i]? = some (relayedForm m (i + 1)) := by
  rw [onRelayCalls_Relay, relaysFrom_getElem?, if_pos hnext, hm, Nat.add_comm]
  rfl

theorem metaGet_completedForm_bound (m : Message) (n : Nat) (hn : 1 < n % uint64Size) :
    (completedForm m n).metaGet "SequenceUpperBound" =
      some (Itoa (toInt (n % uint64Size))) := by
  unfold completedForm
  rw [if_pos hn]
  simp only [Message.metaGet]
  exact GoMap.get_set_self _ _ _

theorem metaGet_completedForm_term (m : Message) (n : Nat) (hn : 1 < n % uint64Size) :
    (completedForm m n).metaGet "SequenceTerm" = some (Itoa (toInt (n % uint64Size))) := by
  unfold completedForm
  rw [if_pos hn]
  simp only [Message.metaGet]
  rw [GoMap.get_set_ne _ _ _ _ (by decide)]
  exact GoMap.get_set_self _ _ _

theorem metaGet_completedForm_uuid (m : Message) (n : Nat) (hn : 1 < n % uint64Size) :
    (completedForm m n).metaGet "SequenceUUID" = some m.Parent_UUID := by
  unfold completedForm
  rw [if_pos hn]
  simp only [Message.metaGet]
  rw [GoMap.get_set_ne _ _ _ _ (by decide), GoMap.get_set_ne _ _ _ _ (by decide)]
  exact GoMap.get_set_self _ _ _

theorem completedForm_one (m : Message) :
    completedForm m 1 = { m with SequenceTerm := 1, SequenceUpperBound := 1 } := by
  have h1 : 1 % uint64Size = 1 := Nat.mod_eq_of_lt (by unfold uint64Size; norm_num)
  unfold completedForm
  rw [h1, if_neg (by omega)]

theorem relayedForm_SequenceUpperBound (m : Message) (j : Nat) :
    (relayedForm m j).SequenceUpperBound = m.SequenceUpperBound := by
  unfold relayedForm
  split <;> rfl

theorem metaGet_relayedForm_bound (m : Message) (j : Nat) :
    (relayedForm m j).metaGet "SequenceUpperBound" = m.metaGet "SequenceUpperBound" := by
  unfold relayedForm
  split
  · simp only [Message.metaGet]
    rw [GoMap.get_set_ne _ _ _ _ (by decide), GoMap.get_set_ne _ _ _ _ (by decide)]
    cases m.MetaData <;> simp [GoMap.get]
  · rfl

theorem receivedMsgs_then_err (ms : List Message) (e : GoError) (more : List RecvResult) :
    receivedMsgs (ms.map RecvResult.msg ++ RecvResult.err e :: more) = ms := by
  simp [receivedMsgs_append, receivedMsgs]

theorem streamEnd_then_err (ms : List Message) (e : GoError) (more : List RecvResult) :
    streamEnd (ms.map RecvResult.msg ++ RecvResult.err e :: more) = StreamEnd.err e := by
  simp [streamEnd_append, streamEnd]

/-! ## The claims -/

/-- C1, one-message dispatch lag: on a stream that delivers the envelopes
`m1 .. mN`, `N ≥ 1`, and then end-of-stream, `OnRelay` is called `N - 1` times,
with `m1 .. m(N-1)` in receive order, `OnRelayComplete` once, with `mN`,
`OnRelayCompleteError` never, and `Relay` returns nil.  An envelope in a
callback is told by the fields the server does not write. -/
theorem relay_dispatch_lag (ms : List Message) (sends : List (Option GoError))
    (hN : ms ≠ []) :
    (onRelayCalls (Server.Relay (cleanStream ms sends)).trace).length = ms.length - 1 ∧
    (onRelayCalls (Server.Relay (cleanStream ms sends)).trace).map Message.received =
      ms.dropLast.map Message.received ∧
    (onRelayCompleteCalls (Server.Relay (cleanStream ms sends)).trace).map Message.received =
      [(ms.getLast hN).received] ∧
    onRelayCompleteErrorCalls (Server.Relay (cleanStream ms sends)).trace = [] ∧
    (Server.Relay (cleanStream ms sends)).outcome = Outcome.returned none := by
  refine ⟨?_, ?_, ?_, ?_, ?_⟩
  · rw [onRelayCalls_Relay, receivedMsgs_cleanStream, relaysFrom_length]
  · rw [onRelayCalls_Relay, receivedMsgs_cleanStream]
    exact relaysFrom_map Message.received Message.received relayedForm_received ms 1
  · rw [onRelayCompleteCalls_Relay, receivedMsgs_cleanStream, streamEnd_cleanStream,
      List.getLast?_eq_getLast ms hN]
    simp [completedForm_received]
  · rw [onRelayCompleteErrorCalls_Relay, streamEnd_cleanStream]
    simp [StreamEnd.failure]
  · rw [outcome_Relay, receivedMsgs_cleanStream, streamEnd_cleanStream]
    simp [hN]

/-- Witness of C1 on a stream of three envelopes. -/
theorem relay_dispatch_lag_witness :
    [sampleMessage "a" "p" "100", sampleMessage "b" "q" "100", sampleMessage "c" "r" "100"] ≠ [] ∧
    (onRelayCalls (Server.Relay (cleanStream
      [sampleMessage "a" "p" "100", sampleMessage "b" "q" "100", sampleMessage "c" "r" "100"]
      [])).trace).map Message.received =
      [(sampleMessage "a" "p" "100").received, (sampleMessage "b" "q" "100").received] ∧
    (onRelayCompleteCalls (Server.Relay (cleanStream
      [sampleMessage "a" "p" "100", sampleMessage "b" "q" "100", sampleMessage "c" "r" "100"]
      [])).trace).map Message.received = [(sampleMessage "c" "r" "100").received] :=
  ⟨by simp,
   (relay_dispatch_lag
      [sampleMessage "a" "p" "100", sampleMessage "b" "q" "100", sampleMessage "c" "r" "100"]
      [] (by simp)).2.1,
   (relay_dispatch_lag
      [sampleMessage "a" "p" "100", sampleMessage "b" "q" "100", sampleMessage "c" "r" "100"]
      [] (by simp)).2.2.1⟩

theorem length_wrappingStream :
    (receivedMsgs wrappingStream.recvs).length = uint64Size := by
  unfold wrappingStream
  rw [receivedMsgs_cleanStream, List.length_replicate]

theorem uint64Size_pos : 0 < uint64Size := by
  unfold uint64Size
  norm_num

theorem completeCalls_wrappingStream :
    ∃ m, onRelayCompleteCalls (Server.Relay wrappingStream).trace =
      [completedForm m uint64Size] := by
  rw [onRelayCompleteCalls_Relay, length_wrappingStream]
  unfold wrappingStream
  rw [streamEnd_cleanStream, receivedMsgs_cleanStream, if_pos rfl]
  cases hg : (List.replicate uint64Size _).getLast? with
  | none =>
    rw [List.getLast?_eq_none_iff] at hg
    have hl := congrArg List.length hg
    rw [List.length_replicate] at hl
    exact absurd hl (Nat.pos_iff_ne_zero.mp uint64Size_pos)
  | some m => exact ⟨m, rfl⟩

theorem closingEnvelope_received (fin : StreamEnd) (hfin : fin ≠ StreamEnd.silent)
    (m : Message) (n : Nat) :
    (closingEnvelope fin m n).map Message.received = [m.received] := by
  cases fin with
  | silent => exact absurd rfl hfin
  | eof => simp [closingEnvelope, completedForm_received]
  | err e => simp [closingEnvelope, Message.received]

/-- On a stream that has ended every received envelope has been handed to a
callback, once, in receive order. -/
theorem handedOver_received (s : Stream) (hend : streamEnd s.recvs ≠ StreamEnd.silent) :
    (handedOver (Server.Relay s).trace).map Message.received =
      (receivedMsgs s.recvs).map Message.received := by
  rw [handedOver_Relay]
  cases hm : receivedMsgs s.recvs with
  | nil => simp [relaysFrom]
  | cons m rest =>
    rw [getLast?_cons_newest]
    simp only [List.map_append, closingEnvelope_received _ hend]
    rw [relaysFrom_map Message.received Message.received relayedForm_received (m :: rest) 1]
    have h := List.dropLast_append_getLast? (newest m rest)
      (by rw [getLast?_cons_newest]; exact rfl : newest m rest ∈ (m :: rest).getLast?)
    have h2 := congrArg (List.map Message.received) h
    simpa using h2

/-- C2, as amended: the envelopes handed to `OnRelay` carry the sequence
terms `1, 2, ..., N - 1` reduced modulo `2 ^ 64`, whatever term they arrived
with; once the stream has ended, all `N` envelopes have been handed over, in
receive order, with the terms `1, 2, ..., N` modulo `2 ^ 64`; for a stream of
fewer than `2 ^ 64` envelopes these are `1, 2, ..., N` themselves. -/
theorem relay_sequence_terms (s : Stream) :
    (onRelayCalls (Server.Relay s).trace).map Message.SequenceTerm =
      (List.range' 1 ((receivedMsgs s.recvs).length - 1)).map (fun k => k % uint64Size) ∧
    (streamEnd s.recvs ≠ StreamEnd.silent →
      (handedOver (Server.Relay s).trace).map Message.received =
        (receivedMsgs s.recvs).map Message.received ∧
      (handedOver (Server.Relay s).trace).map Message.SequenceTerm =
        (List.range' 1 (receivedMsgs s.recvs).length).map (fun k => k % uint64Size)) ∧
    (streamEnd s.recvs ≠ StreamEnd.silent → (receivedMsgs s.recvs).length < 2 ^ 64 →
      (handedOver (Server.Relay s).trace).map Message.SequenceTerm =
        List.range' 1 (receivedMsgs s.recvs).length) := by
  have key : streamEnd s.recvs ≠ StreamEnd.silent →
      (handedOver (Server.Relay s).trace).map Message.SequenceTerm =
        (List.range' 1 (receivedMsgs s.recvs).length).map (fun k => k % uint64Size) := by
    intro hend
    rw [handedOver_Relay]
    cases hm : receivedMsgs s.recvs with
    | nil => simp [relaysFrom]
    | cons m rest =>
      rw [getLast?_cons_newest]
      simp only [List.map_append, relaysFrom_SequenceTerm,
        closingEnvelope_SequenceTerm _ hend, List.length_cons, Nat.add_sub_cancel,
        List.range'_1_concat, Nat.add_comm 1, List.map_cons, List.map_nil]
  refine ⟨?_, fun hend => ⟨handedOver_received s hend, key hend⟩, fun hend hlt => ?_⟩
  · rw [onRelayCalls_Relay, relaysFrom_SequenceTerm]
  · rw [key hend]
    have hc : ∀ k ∈ List.range' 1 (receivedMsgs s.recvs).length,
        (fun k => k % uint64Size) k = id k := by
      intro k hk
      rw [List.mem_range'_1] at hk
      exact Nat.mod_eq_of_lt (by unfold uint64Size; omega)
    rw [List.map_congr_left hc, List.map_id]

/-- Witness of C2 on a stream of two envelopes that arrive with the sequence
terms 7 and 0 and is then cut by an error. -/
theorem relay_sequence_terms_witness :
    streamEnd (failingStream
      [{ sampleMessage "a" "p" "100" with SequenceTerm := 7 }, sampleMessage "b" "p" "100"]
      { text := "reset" } []).recvs ≠ StreamEnd.silent ∧
    (handedOver (Server.Relay (failingStream
      [{ sampleMessage "a" "p" "100" with SequenceTerm := 7 }, sampleMessage "b" "p" "100"]
      { text := "reset" } [])).trace).map Message.SequenceTerm = [1, 2] :=
  ⟨by decide,
   (relay_sequence_terms (failingStream
      [{ sampleMessage "a" "p" "100" with SequenceTerm := 7 }, sampleMessage "b" "p" "100"]
      { text := "reset" } [])).2.2 (by decide) (by decide)⟩

/-- Counterexample to C2 as stated: on a stream of `2 ^ 64` envelopes the last
one, received in position `2 ^ 64`, is stamped with the sequence term 0. -/
theorem relay_sequence_terms_wrap :
    (receivedMsgs wrappingStream.recvs).length = 2 ^ 64 ∧
    (onRelayCompleteCalls (Server.Relay wrappingStream).trace).map Message.SequenceTerm = [0] ∧
    (onRelayCompleteCalls (Server.Relay wrappingStream).trace).map Message.SequenceTerm ≠
      [2 ^ 64] := by
  obtain ⟨m, hm⟩ := completeCalls_wrappingStream
  have h0 : (onRelayCompleteCalls (Server.Relay wrappingStream).trace).map
      Message.SequenceTerm = [0] := by
    rw [hm, List.map_singleton, completedForm_SequenceTerm, Nat.mod_self]
  refine ⟨length_wrappingStream, h0, ?_⟩
  rw [h0]
  decide

/-- C3, receipts: on every stream `Server.Relay` sends one receipt per received
envelope, `N` in all, each with `isOk = true` and an empty error text; on the
stream every envelope is acknowledged before the next `Recv` is attempted,
whether the stream then ends cleanly, with an error, or not at all; and in the
run the receipt comes directly after the `Recv` that delivered the envelope,
before any callback. -/
theorem relay_receipts (s : Stream) :
    receiptsSent (Server.Relay s).trace =
      List.replicate (receivedMsgs s.recvs).length { IsOk := true, Error := "" } ∧
    streamOps (Server.Relay s).trace =
      alternating (receivedMsgs s.recvs) (streamEnd s.recvs) ∧
    (∀ (i : Nat) (m : Message),
      (Server.Relay s).trace[i]? = some (Event.recv (RecvResult.msg m)) →
      ∃ res, (Server.Relay s).trace[i + 1]? =
        some (Event.send { IsOk := true, Error := "" } res)) :=
  ⟨receiptsSent_loop s.recvs s.sends 0 none,
   streamOps_loop s.recvs s.sends 0 none,
   fun i m h => receipt_follows_recv s.recvs s.sends 0 none i m h⟩

/-- Witness of C3 on a stream of two envelopes cut by an error, the first
`Send` failing: two receipts, the first one directly after the first `Recv`. -/
theorem relay_receipts_witness :
    receiptsSent (Server.Relay (failingStream
      [sampleMessage "a" "p" "100", sampleMessage "b" "p" "100"] { text := "reset" }
      [some { text := "broken pipe" }])).trace =
      [{ IsOk := true, Error := "" }, { IsOk := true, Error := "" }] ∧
    ∃ res, (Server.Relay (failingStream
      [sampleMessage "a" "p" "100", sampleMessage "b" "p" "100"] { text := "reset" }
      [some { text := "broken pipe" }])).trace[0 + 1]? =
        some (Event.send { IsOk := true, Error := "" } res) :=
  ⟨(relay_receipts (failingStream
      [sampleMessage "a" "p" "100", sampleMessage "b" "p" "100"] { text := "reset" }
      [some { text := "broken pipe" }])).1,
   (relay_receipts (failingStream
      [sampleMessage "a" "p" "100", sampleMessage "b" "p" "100"] { text := "reset" }
      [some { text := "broken pipe" }])).2.2 0 (sampleMessage "a" "p" "100") (by decide)⟩

/-- C4, as amended: on a stream that delivers `N ≥ 1` envelopes and then
end-of-stream, `OnRelayComplete` gets the `N`-th received envelope, carrying
`sequenceTerm` and `sequenceUpperBound` equal to `N` modulo `2 ^ 64`: equal to
`N` when `N < 2 ^ 64`. -/
theorem relay_final_upper_bound (ms : List Message) (sends : List (Option GoError))
    (hN : ms ≠ []) :
    ∃ final, onRelayCompleteCalls (Server.Relay (cleanStream ms sends)).trace = [final] ∧
      final.received = (ms.getLast hN).received ∧
      final.SequenceTerm = ms.length % uint64Size ∧
      final.SequenceUpperBound = ms.length % uint64Size ∧
      (ms.length < 2 ^ 64 →
        final.SequenceTerm = ms.length ∧ final.SequenceUpperBound = ms.length) := by
  refine ⟨completedForm (ms.getLast hN) ms.length, ?_, completedForm_received _ _,
    completedForm_SequenceTerm _ _, completedForm_SequenceUpperBound _ _, fun hlt => ?_⟩
  · rw [onRelayCompleteCalls_Relay, receivedMsgs_cleanStream, streamEnd_cleanStream,
      List.getLast?_eq_getLast ms hN]
    simp
  · rw [completedForm_SequenceTerm, completedForm_SequenceUpperBound,
      mod_uint64Size_of_lt _ hlt]
    exact ⟨rfl, rfl⟩

/-- Witness of C4, the scenario of the specification: the single envelope
with id "a" and consumption id "100" reaches `OnRelayComplete` with id "a" and
`sequenceUpperBound = 1`. -/
theorem relay_final_upper_bound_witness :
    [sampleMessage "a" "" "100"] ≠ [] ∧
    ∃ final, onRelayCompleteCalls
        (Server.Relay (cleanStream [sampleMessage "a" "" "100"] [])).trace = [final] ∧
      final.UUID = "a" ∧ final.SequenceUpperBound = 1 :=
  ⟨by simp,
   match relay_final_upper_bound [sampleMessage "a" "" "100"] [] (by simp) with
   | ⟨final, h1, h2, _, _, h5⟩ =>
     ⟨final, h1, congrArg Message.UUID h2, (h5 (by decide)).2⟩⟩

/-- Counterexample to C4 as stated: on a stream of `2 ^ 64` envelopes the
envelope handed to `OnRelayComplete` carries `sequenceUpperBound = 0`. -/
theorem relay_final_upper_bound_wrap :
    (receivedMsgs wrappingStream.recvs).length = 2 ^ 64 ∧
    (onRelayCompleteCalls (Server.Relay wrappingStream).trace).map
      Message.SequenceUpperBound = [0] ∧
    (onRelayCompleteCalls (Server.Relay wrappingStream).trace).map
      Message.SequenceUpperBound ≠ [2 ^ 64] := by
  obtain ⟨m, hm⟩ := completeCalls_wrappingStream
  have h0 : (onRelayCompleteCalls (Server.Relay wrappingStream).trace).map
      Message.SequenceUpperBound = [0] := by
    rw [hm, List.map_singleton, completedForm_SequenceUpperBound, Nat.mod_self]
  refine ⟨length_wrappingStream, h0, ?_⟩
  rw [h0]
  decide

/-- C5, as amended: the envelope received in position `k`, with
`1 ≤ k ≤ N - 1`, is handed to `OnRelay` as the `k`-th call; when
`k < 2 ^ 64 - 1` it carries then the metadata `SequenceUUID` = its own parent
id and a `SequenceTerm` entry, the text of `int(k)`, whatever metadata it
arrived with, a nil map included; and when `k < 2 ^ 63` the `SequenceTerm`
entry is the decimal text of `k`.  Here `k = i + 1`. -/
theorem relay_dispatch_metadata (s : Stream) (i : Nat) (m : Message)
    (hm : (receivedMsgs s.recvs)[i]? = some m)
    (hnext : i + 1 < (receivedMsgs s.recvs).length)
    (hwrap : i + 2 < 2 ^ 64) :
    ∃ d, (onRelayCalls (Server.Relay s).trace)[i]? = some d ∧
      d.received = m.received ∧
      d.metaGet "SequenceUUID" = some d.Parent_UUID ∧
      d.metaGet "SequenceTerm" = some (Itoa (toInt (i + 1))) ∧
      (i + 1 < 2 ^ 63 → d.metaGet "SequenceTerm" = some (Nat.repr (i + 1))) := by
  have hmod : (i + 1) % uint64Size = i + 1 :=
    Nat.mod_eq_of_lt (by unfold uint64Size; omega)
  have hmod2 : (i + 1 + 1) % uint64Size = i + 1 + 1 :=
    Nat.mod_eq_of_lt (by unfold uint64Size; omega)
  have hk : 1 < (i + 1 + 1) % uint64Size := by rw [hmod2]; omega
  have hterm : (relayedForm m (i + 1)).metaGet "SequenceTerm" =
      some (Itoa (toInt (i + 1))) := by
    rw [metaGet_relayedForm_term m (i + 1) hk, hmod]
  refine ⟨relayedForm m (i + 1), onRelayCalls_getElem? s i m hm hnext,
    relayedForm_received _ _, ?_, hterm, fun hbound => ?_⟩
  · rw [metaGet_relayedForm_uuid m (i + 1) hk]
    have hp := congrArg Message.Parent_UUID (relayedForm_received m (i + 1))
    exact congrArg some hp.symm
  · rw [hterm, Itoa_toInt_of_lt _ hbound]

/-- Witness of C5: of two envelopes the first, which arrives with a stale
`SequenceTerm` entry, reaches `OnRelay` with `SequenceTerm` = "1" and
`SequenceUUID` = its parent id "p". -/
theorem relay_dispatch_metadata_witness :
    0 + 2 < 2 ^ 64 ∧
    ∃ d, (onRelayCalls (Server.Relay (cleanStream
        [{ sampleMessage "a" "p" "100" with MetaData := some [("SequenceTerm", "9")] },
         sampleMessage "b" "p" "100"] [])).trace)[0]? = some d ∧
      d.received = (sampleMessage "a" "p" "100").received ∧
      d.metaGet "SequenceUUID" = some "p" ∧
      d.metaGet "SequenceTerm" = some "1" :=
  ⟨by decide,
   match relay_dispatch_metadata (cleanStream
      [{ sampleMessage "a" "p" "100" with MetaData := some [("SequenceTerm", "9")] },
       sampleMessage "b" "p" "100"] []) 0
      { sampleMessage "a" "p" "100" with MetaData := some [("SequenceTerm", "9")] }
      (by decide) (by decide) (by decide) with
   | ⟨d, h1, h2, h3, _, h5⟩ =>
     ⟨d, h1, h2,
      h3.trans (congrArg some (congrArg Message.Parent_UUID h2)),
      h5 (by decide)⟩⟩

theorem onRelayCalls_signWrapStream :
    (onRelayCalls (Server.Relay signWrapStream).trace)[2 ^ 63 - 1]? = some (relayedForm
      { UUID := "a", Parent_UUID := "p", Pattern := none, BusinessMessage := none,
        SequenceTerm := 0, SequenceUpperBound := 0, ErrorType := ErrorType.NONE,
        Consumption_ID := "100", MetaData := none } (2 ^ 63 - 1 + 1)) := by
  have hlen : (receivedMsgs signWrapStream.recvs).length = 2 ^ 63 + 1 := by
    unfold signWrapStream
    rw [receivedMsgs_cleanStream, List.length_replicate]
  have hm : (receivedMsgs signWrapStream.recvs)[2 ^ 63 - 1]? = some
      { UUID := "a", Parent_UUID := "p", Pattern := none, BusinessMessage := none,
        SequenceTerm := 0, SequenceUpperBound := 0, ErrorType := ErrorType.NONE,
        Consumption_ID := "100", MetaData := none } := by
    unfold signWrapStream
    rw [receivedMsgs_cleanStream]
    exact List.getElem?_replicate_of_lt (by decide)
  have hnext : 2 ^ 63 - 1 + 1 < (receivedMsgs signWrapStream.recvs).length := by
    rw [hlen]
    decide
  exact onRelayCalls_getElem? signWrapStream (2 ^ 63 - 1) _ hm hnext

theorem onRelayCalls_wrappingStream :
    (onRelayCalls (Server.Relay wrappingStream).trace)[2 ^ 64 - 2]? = some (relayedForm
      { UUID := "a", Parent_UUID := "p", Pattern := none, BusinessMessage := none,
        SequenceTerm := 0, SequenceUpperBound := 0, ErrorType := ErrorType.NONE,
        Consumption_ID := "100", MetaData := none } (2 ^ 64 - 2 + 1)) := by
  have hm : (receivedMsgs wrappingStream.recvs)[2 ^ 64 - 2]? = some
      { UUID := "a", Parent_UUID := "p", Pattern := none, BusinessMessage := none,
        SequenceTerm := 0, SequenceUpperBound := 0, ErrorType := ErrorType.NONE,
        Consumption_ID := "100", MetaData := none } := by
    unfold wrappingStream
    rw [receivedMsgs_cleanStream]
    exact List.getElem?_replicate_of_lt (by decide)
  have hnext : 2 ^ 64 - 2 + 1 < (receivedMsgs wrappingStream.recvs).length := by
    rw [length_wrappingStream]
    decide
  exact onRelayCalls_getElem? wrappingStream (2 ^ 64 - 2) _ hm hnext

/-- Counterexample to C5 as stated, one input for each of the two bounds.  On
a stream of `2 ^ 63 + 1` envelopes the envelope received in position `2 ^ 63`
is handed to `OnRelay` with the metadata `SequenceTerm` =
"-9223372036854775808", which is not the decimal text of its position, while
its `SequenceUUID` entry is its parent id.  On a stream of `2 ^ 64` envelopes
the envelope received in position `2 ^ 64 - 1` is handed to `OnRelay` without a
`SequenceUUID` entry: the counter has wrapped to 0 and the guard `msgCount > 1`
skips the update. -/
theorem relay_dispatch_metadata_sign :
    ((receivedMsgs signWrapStream.recvs).length = 2 ^ 63 + 1 ∧
      ∃ d, (onRelayCalls (Server.Relay signWrapStream).trace)[2 ^ 63 - 1]? = some d ∧
        d.metaGet "SequenceTerm" = some "-9223372036854775808" ∧
        d.metaGet "SequenceTerm" ≠ some (Nat.repr (2 ^ 63)) ∧
        d.metaGet "SequenceUUID" = some d.Parent_UUID) ∧
    ((receivedMsgs wrappingStream.recvs).length = 2 ^ 64 ∧
      ∃ d, (onRelayCalls (Server.Relay wrappingStream).trace)[2 ^ 64 - 2]? = some d ∧
        d.metaGet "SequenceUUID" = none ∧
        d.metaGet "SequenceUUID" ≠ some d.Parent_UUID) := by
  have hlen : (receivedMsgs signWrapStream.recvs).length = 2 ^ 63 + 1 := by
    unfold signWrapStream
    rw [receivedMsgs_cleanStream, List.length_replicate]
  have hk : 1 < (2 ^ 63 - 1 + 1 + 1) % uint64Size := by decide
  have hv : (relayedForm
      { UUID := "a", Parent_UUID := "p", Pattern := none, BusinessMessage := none,
        SequenceTerm := 0, SequenceUpperBound := 0, ErrorType := ErrorType.NONE,
        Consumption_ID := "100", MetaData := none } (2 ^ 63 - 1 + 1)).metaGet "SequenceTerm" =
      some "-9223372036854775808" := by
    rw [metaGet_relayedForm_term _ _ hk]
    decide
  refine ⟨⟨hlen, _, onRelayCalls_signWrapStream, hv, ?_, ?_⟩,
    ⟨length_wrappingStream, _, onRelayCalls_wrappingStream, by decide, by decide⟩⟩
  · rw [hv]
    decide
  · rw [metaGet_relayedForm_uuid _ _ hk]
    decide

/-- C6, derived metadata on the final envelope: on a stream that delivers `N`
envelopes, `1 < N < 2 ^ 63`, and then end-of-stream, the envelope handed to
`OnRelayComplete` is the last one received and carries the metadata
`SequenceUUID` = its own parent id and `SequenceTerm` = `SequenceUpperBound` =
decimal text of `N`. -/
theorem relay_final_metadata (ms : List Message) (sends : List (Option GoError))
    (hmany : 1 < ms.length) (hbound : ms.length < 2 ^ 63) :
    ∃ final, onRelayCompleteCalls (Server.Relay (cleanStream ms sends)).trace = [final] ∧
      ms.getLast?.map Message.received = some final.received ∧
      final.metaGet "SequenceUUID" = some final.Parent_UUID ∧
      final.metaGet "SequenceTerm" = some (Nat.repr ms.length) ∧
      final.metaGet "SequenceUpperBound" = some (Nat.repr ms.length) := by
  have hne : ms ≠ [] := by
    intro h
    rw [h] at hmany
    simp at hmany
  have hmod : ms.length % uint64Size = ms.length :=
    Nat.mod_eq_of_lt (by unfold uint64Size; omega)
  have hn : 1 < ms.length % uint64Size := by rw [hmod]; exact hmany
  refine ⟨completedForm (ms.getLast hne) ms.length, ?_, ?_, ?_, ?_, ?_⟩
  · rw [onRelayCompleteCalls_Relay, receivedMsgs_cleanStream, streamEnd_cleanStream,
      List.getLast?_eq_getLast ms hne]
    simp
  · rw [List.getLast?_eq_getLast ms hne, completedForm_received]
    rfl
  · rw [metaGet_completedForm_uuid _ _ hn]
    have hp := congrArg Message.Parent_UUID (completedForm_received (ms.getLast hne) ms.length)
    exact congrArg some hp.symm
  · rw [metaGet_completedForm_term _ _ hn, hmod, Itoa_toInt_of_lt _ hbound]
  · rw [metaGet_completedForm_bound _ _ hn, hmod, Itoa_toInt_of_lt _ hbound]

/-- Witness of C6 on a stream of two envelopes without metadata. -/
theorem relay_final_metadata_witness :
    1 < [sampleMessage "a" "p" "100", sampleMessage "b" "q" "100"].length ∧
    ∃ final, onRelayCompleteCalls (Server.Relay (cleanStream
        [sampleMessage "a" "p" "100", sampleMessage "b" "q" "100"] [])).trace = [final] ∧
      final.metaGet "SequenceUUID" = some "q" ∧
      final.metaGet "SequenceTerm" = some "2" ∧
      final.metaGet "SequenceUpperBound" = some "2" :=
  ⟨by decide,
   match relay_final_metadata [sampleMessage "a" "p" "100", sampleMessage "b" "q" "100"] []
      (by decide) (by decide) with
   | ⟨final, h1, h2, h3, h4, h5⟩ =>
     ⟨final, h1,
      h3.trans (congrArg some
        (congrArg Message.Parent_UUID (Option.some.inj h2)).symm),
      h4, h5⟩⟩

/-- C7, single-message stream: on a stream that delivers one envelope and then
end-of-stream, `OnRelay` is never called and the envelope handed to
`OnRelayComplete` has the metadata map it was received with, a nil map
included: no derived key is written. -/
theorem relay_single_message (m : Message) (sends : List (Option GoError)) :
    onRelayCalls (Server.Relay (cleanStream [m] sends)).trace = [] ∧
    ∃ final, onRelayCompleteCalls (Server.Relay (cleanStream [m] sends)).trace = [final] ∧
      final.received = m.received ∧
      final.MetaData = m.MetaData := by
  refine ⟨?_, { m with SequenceTerm := 1, SequenceUpperBound := 1 }, ?_, rfl, rfl⟩
  · rw [onRelayCalls_Relay, receivedMsgs_cleanStream]
    rfl
  · rw [onRelayCompleteCalls_Relay, receivedMsgs_cleanStream, streamEnd_cleanStream]
    simp [completedForm_one]

/-- C8, as amended: on a stream that delivers one envelope and then
end-of-stream, the envelope handed to `OnRelayComplete` has
`sequenceUpperBound = 1`, the count of the stream, whatever value the field
arrived with. -/
theorem relay_single_upper_bound (m : Message) (sends : List (Option GoError)) :
    (onRelayCompleteCalls (Server.Relay (cleanStream [m] sends)).trace).map
      Message.SequenceUpperBound = [1] := by
  rw [onRelayCompleteCalls_Relay, receivedMsgs_cleanStream, streamEnd_cleanStream]
  simp [completedForm_one]

/-- Counterexample to C8 as stated: the single envelope of the scenario
arrives with `sequenceUpperBound = 0` and reaches `OnRelayComplete` with
`sequenceUpperBound = 1`. -/
theorem relay_single_upper_bound_set :
    (sampleMessage "a" "" "100").SequenceUpperBound = 0 ∧
    (onRelayCompleteCalls (Server.Relay (cleanStream [sampleMessage "a" "" "100"] [])).trace).map
      Message.SequenceUpperBound = [1] := by
  decide

/-- C9, `sequenceUpperBound` is written on the terminal envelope only: on
every stream the envelopes handed to `OnRelay` are the received ones but the
newest, in order, each with the `sequenceUpperBound` field and the
`SequenceUpperBound` metadata entry it was received with; and an envelope
handed to `OnRelayCompleteError` is the newest received one with the
`sequenceUpperBound` field and the whole metadata map it was received with. -/
theorem relay_upper_bound_untouched (s : Stream) :
    (onRelayCalls (Server.Relay s).trace).map Message.received =
      (receivedMsgs s.recvs).dropLast.map Message.received ∧
    (onRelayCalls (Server.Relay s).trace).map Message.SequenceUpperBound =
      (receivedMsgs s.recvs).dropLast.map Message.SequenceUpperBound ∧
    (onRelayCalls (Server.Relay s).trace).map (fun d => d.metaGet "SequenceUpperBound") =
      (receivedMsgs s.recvs).dropLast.map (fun m => m.metaGet "SequenceUpperBound") ∧
    (∀ (l : Message) (e : GoError),
      (some l, e) ∈ onRelayCompleteErrorCalls (Server.Relay s).trace →
      ∃ m, (receivedMsgs s.recvs).getLast? = some m ∧ l.received = m.received ∧
        l.SequenceUpperBound = m.SequenceUpperBound ∧ l.MetaData = m.MetaData) := by
  refine ⟨?_, ?_, ?_, ?_⟩
  · rw [onRelayCalls_Relay]
    exact relaysFrom_map Message.received Message.received relayedForm_received _ 1
  · rw [onRelayCalls_Relay]
    exact relaysFrom_map Message.SequenceUpperBound Message.SequenceUpperBound
      relayedForm_SequenceUpperBound _ 1
  · rw [onRelayCalls_Relay]
    exact relaysFrom_map (fun d => d.metaGet "SequenceUpperBound")
      (fun m => m.metaGet "SequenceUpperBound") metaGet_relayedForm_bound _ 1
  · intro l e hmem
    rw [onRelayCompleteErrorCalls_Relay] at hmem
    cases hf : (streamEnd s.recvs).failure with
    | none => rw [hf] at hmem; simp at hmem
    | some e' =>
      rw [hf] at hmem
      cases hg : (receivedMsgs s.recvs).getLast? with
      | none => rw [hg] at hmem; simp at hmem
      | some m =>
        rw [hg] at hmem
        simp only [Option.map_some', Option.toList_some, List.mem_singleton, Prod.mk.injEq,
          Option.some.injEq] at hmem
        have hl := hmem.1
        subst hl
        exact ⟨m, rfl, rfl, rfl, rfl⟩

/-- Witness of C9: two envelopes that arrive with `sequenceUpperBound = 5`, then
a receive error; both callbacks see the field as it arrived. -/
theorem relay_upper_bound_untouched_witness :
    (onRelayCalls (Server.Relay (failingStream
      [{ sampleMessage "a" "p" "100" with SequenceUpperBound := 5 },
       { sampleMessage "b" "p" "100" with SequenceUpperBound := 5 }]
      { text := "reset" } [])).trace).map Message.SequenceUpperBound = [5] ∧
    ∃ m, (receivedMsgs (failingStream
      [{ sampleMessage "a" "p" "100" with SequenceUpperBound := 5 },
       { sampleMessage "b" "p" "100" with SequenceUpperBound := 5 }]
      { text := "reset" } []).recvs).getLast? = some m ∧
      ({ sampleMessage "b" "p" "100" with SequenceUpperBound := 5, SequenceTerm := 2 } :
        Message).SequenceUpperBound = m.SequenceUpperBound :=
  ⟨(relay_upper_bound_untouched (failingStream
      [{ sampleMessage "a" "p" "100" with SequenceUpperBound := 5 },
       { sampleMessage "b" "p" "100" with SequenceUpperBound := 5 }]
      { text := "reset" } [])).2.1,
   match (relay_upper_bound_untouched (failingStream
      [{ sampleMessage "a" "p" "100" with SequenceUpperBound := 5 },
       { sampleMessage "b" "p" "100" with SequenceUpperBound := 5 }]
      { text := "reset" } [])).2.2.2
      { sampleMessage "b" "p" "100" with SequenceUpperBound := 5, SequenceTerm := 2 }
      { text := "reset" } (by decide) with
   | ⟨m, h1, _, h3, _⟩ => ⟨m, h1, h3⟩⟩

/-- C10, receive-error path: when `k ≥ 0` envelopes are received and the next
`Recv` fails with an error `e` other than end-of-stream, `OnRelayCompleteError`
is called once, with the `k`-th received envelope (stamped with its sequence
term; no envelope when `k = 0`) and `e`; `Relay` returns `e`; `OnRelayComplete`
is not called; the failing `Recv` is the last one, whatever the stream would
deliver after it; and `k` receipts are sent, none for the failed receive. -/
theorem relay_receive_error (ms : List Message) (e : GoError) (more : List RecvResult)
    (sends : List (Option GoError)) :
    onRelayCompleteErrorCalls (Server.Relay
        { recvs := ms.map RecvResult.msg ++ RecvResult.err e :: more, sends := sends }).trace =
      [(ms.getLast?.map (fun m => { m with SequenceTerm := ms.length % uint64Size }), e)] ∧
    (Server.Relay
        { recvs := ms.map RecvResult.msg ++ RecvResult.err e :: more, sends := sends }).outcome =
      Outcome.returned (some e) ∧
    onRelayCompleteCalls (Server.Relay
        { recvs := ms.map RecvResult.msg ++ RecvResult.err e :: more, sends := sends }).trace =
      [] ∧
    recvCalls (Server.Relay
        { recvs := ms.map RecvResult.msg ++ RecvResult.err e :: more, sends := sends }).trace =
      ms.map RecvResult.msg ++ [RecvResult.err e] ∧
    receiptsSent (Server.Relay
        { recvs := ms.map RecvResult.msg ++ RecvResult.err e :: more, sends := sends }).trace =
      List.replicate ms.length { IsOk := true, Error := "" } := by
  refine ⟨?_, ?_, ?_, ?_, ?_⟩
  · rw [onRelayCompleteErrorCalls_Relay]
    simp only [receivedMsgs_then_err, streamEnd_then_err]
    rfl
  · rw [outcome_Relay]
    simp only [streamEnd_then_err]
  · rw [onRelayCompleteCalls_Relay]
    simp only [streamEnd_then_err]
    simp
  · have h := recvCalls_loop (ms.map RecvResult.msg ++ RecvResult.err e :: more) sends 0 none
    rw [receivedMsgs_then_err, streamEnd_then_err] at h
    exact h
  · have h := receiptsSent_loop (ms.map RecvResult.msg ++ RecvResult.err e :: more) sends 0 none
    rw [receivedMsgs_then_err] at h
    exact h

/-! ## Failing sends and the empty stream -/

theorem processOnRelay_withoutSendResult (msg : Message) (last : Option Message) (c : Nat) :
    (Server.processOnRelay msg last c).map Event.withoutSendResult =
      Server.processOnRelay msg last c := by
  cases last <;> simp [Server.processOnRelay, Event.withoutSendResult]

theorem processOnRelayComplete_withoutSendResult (last : Option Message) (c : Nat) :
    (Server.processOnRelayComplete last c).1.map Event.withoutSendResult =
      (Server.processOnRelayComplete last c).1 := by
  cases last <;> simp [Server.processOnRelayComplete, Event.withoutSendResult]

theorem relayLoop_sends (recvs : List RecvResult) :
    ∀ (sends : List (Option GoError)) (c : Nat) (last : Option Message),
      (Server.relayLoop recvs sends c last).trace.map Event.withoutSendResult =
        (Server.relayLoop recvs [] c last).trace ∧
      (Server.relayLoop recvs sends c last).outcome =
        (Server.relayLoop recvs [] c last).outcome := by
  induction recvs with
  | nil => intro sends c last; simp [relayLoop_nil]
  | cons r rest ih =>
    intro sends c last
    cases r with
    | eof =>
      simp [relayLoop_eof, processOnRelayComplete_withoutSendResult,
        Event.withoutSendResult]
    | err e =>
      simp [relayLoop_err, Event.withoutSendResult]
    | msg m =>
      have h := ih sends.tail ((c + 1) % uint64Size)
        (some { m with SequenceTerm := (c + 1) % uint64Size })
      simp [relayLoop_msg, processOnRelay_withoutSendResult, h.1, h.2,
        Event.withoutSendResult]

theorem fatal_not_mem_loop (recvs : List RecvResult) :
    ∀ (sends : List (Option GoError)) (c : Nat) (l : Message),
      Event.fatal ∉ (Server.relayLoop recvs sends c (some l)).trace := by
  induction recvs with
  | nil => intro sends c l; simp [relayLoop_nil]
  | cons r rest ih =>
    intro sends c l
    cases r with
    | eof => simp [relayLoop_eof, Server.processOnRelayComplete]
    | err e => simp [relayLoop_err]
    | msg m =>
      have h := ih sends.tail ((c + 1) % uint64Size)
        { m with SequenceTerm := (c + 1) % uint64Size }
      simp [relayLoop_msg, Server.processOnRelay, h]

/-- C11, as amended: a failing `Send` of a receipt is only logged.  The run on
a stream is, event by event and in its result, the run on the same stream with
every `Send` succeeding; and `OnRelayCompleteError` is called only when a
`Recv` fails. -/
theorem relay_send_failure_ignored (recvs : List RecvResult)
    (sends : List (Option GoError)) :
    (Server.Relay { recvs := recvs, sends := sends }).trace.map Event.withoutSendResult =
      (Server.Relay { recvs := recvs, sends := [] }).trace ∧
    (Server.Relay { recvs := recvs, sends := sends }).outcome =
      (Server.Relay { recvs := recvs, sends := [] }).outcome ∧
    ((streamEnd recvs).failure = none →
      onRelayCompleteErrorCalls (Server.Relay { recvs := recvs, sends := sends }).trace = []) := by
  refine ⟨(relayLoop_sends recvs sends 0 none).1, (relayLoop_sends recvs sends 0 none).2,
    fun h => ?_⟩
  rw [onRelayCompleteErrorCalls_Relay]
  simp [h]

/-- Witness of C11: two envelopes and end-of-stream, the first `Send`
failing; no call of `OnRelayCompleteError`. -/
theorem relay_send_failure_ignored_witness :
    (streamEnd (cleanStream [sampleMessage "a" "p" "100", sampleMessage "b" "p" "100"]
      [some { text := "broken pipe" }]).recvs).failure = none ∧
    onRelayCompleteErrorCalls (Server.Relay
      { recvs := (cleanStream [sampleMessage "a" "p" "100", sampleMessage "b" "p" "100"]
          [some { text := "broken pipe" }]).recvs,
        sends := [some { text := "broken pipe" }] }).trace = [] :=
  ⟨by decide,
   (relay_send_failure_ignored
      (cleanStream [sampleMessage "a" "p" "100", sampleMessage "b" "p" "100"]
        [some { text := "broken pipe" }]).recvs
      [some { text := "broken pipe" }]).2.2 (by decide)⟩

/-- Counterexample to C11 as stated: on a stream of two envelopes and
end-of-stream whose first `Send` fails, `OnRelayCompleteError` is not called,
both further `Recv` calls are made, `OnRelay` and `OnRelayComplete` are called
after the failure, and `Relay` returns nil. -/
theorem relay_send_failure_not_fatal :
    receiptsSent (Server.Relay (cleanStream
      [sampleMessage "a" "p" "100", sampleMessage "b" "p" "100"]
      [some { text := "broken pipe" }])).trace = [okReceipt, okReceipt] ∧
    onRelayCompleteErrorCalls (Server.Relay (cleanStream
      [sampleMessage "a" "p" "100", sampleMessage "b" "p" "100"]
      [some { text := "broken pipe" }])).trace = [] ∧
    (recvCalls (Server.Relay (cleanStream
      [sampleMessage "a" "p" "100", sampleMessage "b" "p" "100"]
      [some { text := "broken pipe" }])).trace).length = 3 ∧
    (onRelayCalls (Server.Relay (cleanStream
      [sampleMessage "a" "p" "100", sampleMessage "b" "p" "100"]
      [some { text := "broken pipe" }])).trace).length = 1 ∧
    (onRelayCompleteCalls (Server.Relay (cleanStream
      [sampleMessage "a" "p" "100", sampleMessage "b" "p" "100"]
      [some { text := "broken pipe" }])).trace).length = 1 ∧
    (Server.Relay (cleanStream
      [sampleMessage "a" "p" "100", sampleMessage "b" "p" "100"]
      [some { text := "broken pipe" }])).outcome = Outcome.returned none := by
  decide

/-- C12, empty stream: when the first `Recv` signals end-of-stream, the run is
that `Recv` followed by the fatal branch: no receipt, no callback, the process
ends; and on a stream with at least one received envelope the fatal branch is
never taken. -/
theorem relay_empty_stream :
    (∀ (more : List RecvResult) (sends : List (Option GoError)),
      (Server.Relay { recvs := RecvResult.eof :: more, sends := sends }).trace =
        [Event.recv RecvResult.eof, Event.fatal] ∧
      receiptsSent (Server.Relay { recvs := RecvResult.eof :: more, sends := sends }).trace =
        [] ∧
      handedOver (Server.Relay { recvs := RecvResult.eof :: more, sends := sends }).trace =
        [] ∧
      onRelayCompleteErrorCalls
        (Server.Relay { recvs := RecvResult.eof :: more, sends := sends }).trace = [] ∧
      (Server.Relay { recvs := RecvResult.eof :: more, sends := sends }).outcome =
        Outcome.fatal) ∧
    (∀ s : Stream, receivedMsgs s.recvs ≠ [] →
      Event.fatal ∉ (Server.Relay s).trace ∧ (Server.Relay s).outcome ≠ Outcome.fatal) := by
  constructor
  · intro more sends
    have ht : (Server.Relay { recvs := RecvResult.eof :: more, sends := sends }).trace =
        [Event.recv RecvResult.eof, Event.fatal] := by
      simp [Server.Relay, relayLoop_eof, Server.processOnRelayComplete]
    refine ⟨ht, ?_, ?_, ?_, ?_⟩
    · rw [ht]; rfl
    · rw [ht]; rfl
    · rw [ht]; rfl
    · simp [Server.Relay, relayLoop_eof, Server.processOnRelayComplete]
  · intro s hne
    obtain ⟨recvs, sends⟩ := s
    cases recvs with
    | nil => exact absurd rfl hne
    | cons r rest =>
      cases r with
      | eof => exact absurd rfl hne
      | err e => exact absurd rfl hne
      | msg m =>
        constructor
        · rw [Relay_msg]
          simp [fatal_not_mem_loop]
        · rw [outcome_Relay]
          simp only [streamEnd, receivedMsgs]
          cases streamEnd rest <;> simp

/-- Witness of C12: one envelope and then end-of-stream does not take the
fatal branch. -/
theorem relay_empty_stream_witness :
    receivedMsgs (cleanStream [sampleMessage "a" "p" "100"] []).recvs ≠ [] ∧
    (Server.Relay (cleanStream [sampleMessage "a" "p" "100"] [])).outcome ≠ Outcome.fatal :=
  ⟨by decide,
   (relay_empty_stream.2 (cleanStream [sampleMessage "a" "p" "100"] []) (by decide)).2⟩

/-- C13, registration: `Server.Registration` calls the registration callback
once, with the `ServiceInfo` it was given; it returns the receipt
`{isOk: true, error: ""}` and a nil error exactly when the callback returns
nil, and otherwise the receipt `{isOk: false, error: <text of the error>}`
together with the error of the callback. -/
theorem registration_receipt (cb : ServiceInfo → Option GoError) (si : ServiceInfo) :
    (Server.Registration cb si).calls = [si] ∧
    (((Server.Registration cb si).receipt = { IsOk := true, Error := "" } ∧
        (Server.Registration cb si).err = none) ↔ cb si = none) ∧
    (∀ e, cb si = some e →
      (Server.Registration cb si).receipt = { IsOk := false, Error := e.text } ∧
      (Server.Registration cb si).err = some e) := by
  unfold Server.Registration
  cases h : cb si with
  | none => simp
  | some e => simp

/-- Witness of C13: a callback that rejects the service "abc" with the error
"unknown service". -/
theorem registration_receipt_witness :
    (Server.Registration (fun _ => some { text := "unknown service" })
      { ServiceName := "abc", ServiceVersion := "1.0.0" }).receipt =
      { IsOk := false, Error := "unknown service" } ∧
    (Server.Registration (fun _ => some { text := "unknown service" })
      { ServiceName := "abc", ServiceVersion := "1.0.0" }).err =
      some { text := "unknown service" } :=
  (registration_receipt (fun _ => some { text := "unknown service" })
    { ServiceName := "abc", ServiceVersion := "1.0.0" }).2.2
    { text := "unknown service" } rfl

/-! ## The order of the events of a run -/

theorem relayLoop_head (recvs : List RecvResult) (sends : List (Option GoError)) (c : Nat)
    (last : Option Message) :
    (Server.relayLoop recvs sends c last).trace[0]? = recvs[0]?.map Event.recv := by
  cases recvs with
  | nil => simp [relayLoop_nil]
  | cons r rest =>
    cases r with
    | eof => simp [relayLoop_eof]
    | err e => simp [relayLoop_err]
    | msg m => simp [relayLoop_msg]

theorem relayLoop_iteration (recvs : List RecvResult) :
    ∀ (sends : List (Option GoError)) (k : Nat) (l : Message) (j : Nat) (m prev : Message),
      (receivedMsgs recvs)[j]? = some m →
      (l :: receivedMsgs recvs)[j]? = some prev →
      (Server.relayLoop recvs sends (k % uint64Size)
          (some { l with SequenceTerm := k % uint64Size })).trace[3 * j]? =
        some (Event.recv (RecvResult.msg m)) ∧
      (∃ res, (Server.relayLoop recvs sends (k % uint64Size)
          (some { l with SequenceTerm := k % uint64Size })).trace[3 * j + 1]? =
        some (Event.send okReceipt res)) ∧
      (Server.relayLoop recvs sends (k % uint64Size)
          (some { l with SequenceTerm := k % uint64Size })).trace[3 * j + 2]? =
        some (Event.onRelay (relayedForm prev (k + j))) ∧
      (Server.relayLoop recvs sends (k % uint64Size)
          (some { l with SequenceTerm := k % uint64Size })).trace[3 * j + 3]? =
        recvs[j + 1]?.map Event.recv := by
  induction recvs with
  | nil => intro sends k l j m prev hm; simp [receivedMsgs] at hm
  | cons r rest ih =>
    intro sends k l j m prev hm hprev
    cases r with
    | eof => simp [receivedMsgs] at hm
    | err e => simp [receivedMsgs] at hm
    | msg m' =>
      rw [relayLoop_msg]
      simp only [Nat.mod_add_mod]
      rw [processOnRelay_pending]
      cases j with
      | zero =>
        simp only [receivedMsgs, List.getElem?_cons_zero, Option.some.injEq] at hm hprev
        subst hm
        subst hprev
        refine ⟨by simp, ⟨sends.headD none, by simp [okReceipt]⟩, by simp, ?_⟩
        simp [relayLoop_head]
      | succ j' =>
        simp only [receivedMsgs, List.getElem?_cons_succ] at hm hprev
        have h := ih sends.tail (k + 1) m' j' m prev hm hprev
        have e0 : 3 * (j' + 1) = 3 * j' + 1 + 1 + 1 := by omega
        have e1 : 3 * (j' + 1) + 1 = 3 * j' + 1 + 1 + 1 + 1 := by omega
        have e2 : 3 * (j' + 1) + 2 = 3 * j' + 2 + 1 + 1 + 1 := by omega
        have e3 : 3 * (j' + 1) + 3 = 3 * j' + 3 + 1 + 1 + 1 := by omega
        have ek : k + 1 + j' = k + (j' + 1) := by omega
        rw [e3, e2, e1, e0]
        simp only [List.getElem?_cons_succ, List.singleton_append]
        rw [ek] at h
        exact h

/-- C14, per-stream total order: when message `n ≥ 2` is received (here
`n = j + 2`, `m` the message and `prev` message `n - 1`), the run has, at
consecutive places, the `Recv` that delivers `m`, the `Send` of its receipt,
the `OnRelay` call with `prev`, and the next `Recv`, whatever it returns (no
event when the stream stays silent). -/
theorem relay_total_order (s : Stream) (j : Nat) (m prev : Message)
    (hm : (receivedMsgs s.recvs)[j + 1]? = some m)
    (hprev : (receivedMsgs s.recvs)[j]? = some prev) :
    (Server.Relay s).trace[3 * j + 2]? = some (Event.recv (RecvResult.msg m)) ∧
    (∃ res, (Server.Relay s).trace[3 * j + 3]? =
      some (Event.send { IsOk := true, Error := "" } res)) ∧
    (∃ d, (Server.Relay s).trace[3 * j + 4]? = some (Event.onRelay d) ∧
      d.received = prev.received) ∧
    (Server.Relay s).trace[3 * j + 5]? = s.recvs[j + 2]?.map Event.recv := by
  obtain ⟨recvs, sends⟩ := s
  cases recvs with
  | nil => simp [receivedMsgs] at hm
  | cons r rest =>
    cases r with
    | eof => simp [receivedMsgs] at hm
    | err e => simp [receivedMsgs] at hm
    | msg m0 =>
      simp only [receivedMsgs, List.getElem?_cons_succ] at hm hprev
      have h := relayLoop_iteration rest sends.tail 1 m0 j m prev hm hprev
      rw [Relay_msg]
      have e0 : 3 * j + 2 = 3 * j + 1 + 1 := by omega
      have e1 : 3 * j + 3 = 3 * j + 1 + 1 + 1 := by omega
      have e2 : 3 * j + 4 = 3 * j + 2 + 1 + 1 := by omega
      have e3 : 3 * j + 5 = 3 * j + 3 + 1 + 1 := by omega
      rw [e0, e1, e2, e3]
      simp only [List.getElem?_cons_succ]
      exact ⟨h.1, h.2.1, ⟨_, h.2.2.1, relayedForm_received _ _⟩, h.2.2.2⟩

/-- Witness of C14 on three envelopes and end-of-stream: the third is
received, acknowledged, then the second is dispatched, then end-of-stream is
received. -/
theorem relay_total_order_witness :
    (Server.Relay (cleanStream
      [sampleMessage "a" "p" "100", sampleMessage "b" "p" "100", sampleMessage "c" "p" "100"]
      [])).trace[3 * 1 + 2]? = some (Event.recv (RecvResult.msg (sampleMessage "c" "p" "100"))) ∧
    (Server.Relay (cleanStream
      [sampleMessage "a" "p" "100", sampleMessage "b" "p" "100", sampleMessage "c" "p" "100"]
      [])).trace[3 * 1 + 5]? = some (Event.recv RecvResult.eof) :=
  ⟨(relay_total_order (cleanStream
      [sampleMessage "a" "p" "100", sampleMessage "b" "p" "100", sampleMessage "c" "p" "100"]
      []) 1 (sampleMessage "c" "p" "100") (sampleMessage "b" "p" "100") rfl rfl).1,
   (relay_total_order (cleanStream
      [sampleMessage "a" "p" "100", sampleMessage "b" "p" "100", sampleMessage "c" "p" "100"]
      []) 1 (sampleMessage "c" "p" "100") (sampleMessage "b" "p" "100") rfl rfl).2.2.2⟩

/-! ## What the server leaves as it was -/

theorem metaGet_relayedForm_other (key : String) (h1 : key ≠ "SequenceUUID")
    (h2 : key ≠ "SequenceTerm") (m : Message) (j : Nat) :
    (relayedForm m j).metaGet key = m.metaGet key := by
  unfold relayedForm
  split
  · simp only [Message.metaGet]
    rw [GoMap.get_set_ne _ _ _ _ h2, GoMap.get_set_ne _ _ _ _ h1]
    cases m.MetaData <;> simp [GoMap.get]
  · rfl

theorem metaGet_completedForm_other (key : String) (h1 : key ≠ "SequenceUUID")
    (h2 : key ≠ "SequenceTerm") (h3 : key ≠ "SequenceUpperBound") (m : Message) (n : Nat) :
    (completedForm m n).metaGet key = m.metaGet key := by
  unfold completedForm
  split
  · simp only [Message.metaGet]
    rw [GoMap.get_set_ne _ _ _ _ h3, GoMap.get_set_ne _ _ _ _ h2,
      GoMap.get_set_ne _ _ _ _ h1]
    cases m.MetaData <;> simp [GoMap.get]
  · rfl

theorem closingEnvelope_map {β : Type} (f : Message → β)
    (hc : ∀ m n, f (completedForm m n) = f m)
    (hs : ∀ (m : Message) (x : Nat), f { m with SequenceTerm := x } = f m)
    (fin : StreamEnd) (hfin : fin ≠ StreamEnd.silent) (m : Message) (n : Nat) :
    (closingEnvelope fin m n).map f = [f m] := by
  cases fin with
  | silent => exact absurd rfl hfin
  | eof => simp [closingEnvelope, hc]
  | err e => simp [closingEnvelope, hs]

/-- On a stream that has ended, a field that neither dispatch changes has, over
the envelopes handed to the callbacks in call order, the values it has over
the received envelopes in receive order. -/
theorem handedOver_map {β : Type} (f : Message → β)
    (hr : ∀ m j, f (relayedForm m j) = f m)
    (hc : ∀ m n, f (completedForm m n) = f m)
    (hs : ∀ (m : Message) (x : Nat), f { m with SequenceTerm := x } = f m)
    (s : Stream) (hend : streamEnd s.recvs ≠ StreamEnd.silent) :
    (handedOver (Server.Relay s).trace).map f = (receivedMsgs s.recvs).map f := by
  rw [handedOver_Relay]
  cases hm : receivedMsgs s.recvs with
  | nil => simp [relaysFrom]
  | cons m rest =>
    rw [getLast?_cons_newest]
    simp only [List.map_append, closingEnvelope_map f hc hs _ hend]
    rw [relaysFrom_map f f hr (m :: rest) 1]
    have h := List.dropLast_append_getLast? (newest m rest)
      (by rw [getLast?_cons_newest]; exact rfl : newest m rest ∈ (m :: rest).getLast?)
    have h2 := congrArg (List.map f) h
    simpa using h2

theorem relayedForm_ErrorType (m : Message) (j : Nat) :
    (relayedForm m j).ErrorType = m.ErrorType := by
  unfold relayedForm
  split <;> rfl

theorem completedForm_ErrorType (m : Message) (n : Nat) :
    (completedForm m n).ErrorType = m.ErrorType := by
  unfold completedForm
  split <;> rfl

theorem relayedForm_Consumption_ID (m : Message) (j : Nat) :
    (relayedForm m j).Consumption_ID = m.Consumption_ID := by
  unfold relayedForm
  split <;> rfl

theorem completedForm_Consumption_ID (m : Message) (n : Nat) :
    (completedForm m n).Consumption_ID = m.Consumption_ID := by
  unfold completedForm
  split <;> rfl

/-- C15, pass-through of envelope content: the envelopes handed to `OnRelay`
are the received ones but the newest, in order, and once the stream has ended
the envelopes handed to the three callbacks are the received ones, in order;
each is handed over with the id, parent id, pattern, business message, error
type and consumption id it was received with (`Message.received` keeps these
six fields), so an error type is never reset, and with every metadata entry it
arrived with under a key other than the three derived keys. -/
theorem relay_pass_through (s : Stream) (key : String) (h1 : key ≠ "SequenceUUID")
    (h2 : key ≠ "SequenceTerm") (h3 : key ≠ "SequenceUpperBound") :
    (onRelayCalls (Server.Relay s).trace).map Message.received =
      (receivedMsgs s.recvs).dropLast.map Message.received ∧
    (onRelayCalls (Server.Relay s).trace).map (fun d => d.metaGet key) =
      (receivedMsgs s.recvs).dropLast.map (fun m => m.metaGet key) ∧
    (streamEnd s.recvs ≠ StreamEnd.silent →
      (handedOver (Server.Relay s).trace).map Message.received =
        (receivedMsgs s.recvs).map Message.received ∧
      (handedOver (Server.Relay s).trace).map Message.ErrorType =
        (receivedMsgs s.recvs).map Message.ErrorType ∧
      (handedOver (Server.Relay s).trace).map Message.Consumption_ID =
        (receivedMsgs s.recvs).map Message.Consumption_ID ∧
      (handedOver (Server.Relay s).trace).map (fun d => d.metaGet key) =
        (receivedMsgs s.recvs).map (fun m => m.metaGet key)) := by
  refine ⟨?_, ?_, fun hend => ⟨?_, ?_, ?_, ?_⟩⟩
  · rw [onRelayCalls_Relay]
    exact relaysFrom_map Message.received Message.received relayedForm_received _ 1
  · rw [onRelayCalls_Relay]
    exact relaysFrom_map (fun d => d.metaGet key) (fun m => m.metaGet key)
      (metaGet_relayedForm_other key h1 h2) _ 1
  · exact handedOver_map Message.received relayedForm_received completedForm_received
      (fun _ _ => rfl) s hend
  · exact handedOver_map Message.ErrorType relayedForm_ErrorType completedForm_ErrorType
      (fun _ _ => rfl) s hend
  · exact handedOver_map Message.Consumption_ID relayedForm_Consumption_ID
      completedForm_Consumption_ID (fun _ _ => rfl) s hend
  · exact handedOver_map (fun d => d.metaGet key) (metaGet_relayedForm_other key h1 h2)
      (metaGet_completedForm_other key h1 h2 h3) (fun _ _ => rfl) s hend

/-- Witness of C15: two envelopes flagged `PROCESSING`, with a metadata entry
"tenant", and end-of-stream; both reach their callback flagged `PROCESSING`
and with the entry. -/
theorem relay_pass_through_witness :
    "tenant" ≠ "SequenceUUID" ∧
    (handedOver (Server.Relay (cleanStream
      [{ sampleMessage "a" "p" "100" with
          ErrorType := ErrorType.PROCESSING, MetaData := some [("tenant", "t1")] },
       { sampleMessage "b" "p" "100" with
          ErrorType := ErrorType.PROCESSING, MetaData := some [("tenant", "t1")] }]
      [])).trace).map Message.ErrorType = [ErrorType.PROCESSING, ErrorType.PROCESSING] ∧
    (handedOver (Server.Relay (cleanStream
      [{ sampleMessage "a" "p" "100" with
          ErrorType := ErrorType.PROCESSING, MetaData := some [("tenant", "t1")] },
       { sampleMessage "b" "p" "100" with
          ErrorType := ErrorType.PROCESSING, MetaData := some [("tenant", "t1")] }]
      [])).trace).map (fun d => d.metaGet "tenant") = [some "t1", some "t1"] :=
  ⟨by decide,
   ((relay_pass_through (cleanStream
      [{ sampleMessage "a" "p" "100" with
          ErrorType := ErrorType.PROCESSING, MetaData := some [("tenant", "t1")] },
       { sampleMessage "b" "p" "100" with
          ErrorType := ErrorType.PROCESSING, MetaData := some [("tenant", "t1")] }]
      []) "tenant" (by decide) (by decide) (by decide)).2.2 (by decide)).2.1,
   ((relay_pass_through (cleanStream
      [{ sampleMessage "a" "p" "100" with
          ErrorType := ErrorType.PROCESSING, MetaData := some [("tenant", "t1")] },
       { sampleMessage "b" "p" "100" with
          ErrorType := ErrorType.PROCESSING, MetaData := some [("tenant", "t1")] }]
      []) "tenant" (by decide) (by decide) (by decide)).2.2 (by decide)).2.2.2⟩

/-- C18, no loss and no duplication: on a stream with `N ≥ 1` received
envelopes, `OnRelay` gets the envelopes `1 .. N - 1` in order; at end-of-stream
`OnRelayComplete` gets envelope `N` and `OnRelayCompleteError` nothing; at a
receive error `e`, `OnRelayCompleteError` gets envelope `N` with `e` and
`OnRelayComplete` nothing; and once the stream has ended the envelopes handed
to the callbacks, all calls taken together in call order, are the received
envelopes in receive order: each once, none that was not received. -/
theorem relay_no_loss_no_duplication (s : Stream) (hN : receivedMsgs s.recvs ≠ []) :
    (onRelayCalls (Server.Relay s).trace).map Message.received =
      (receivedMsgs s.recvs).dropLast.map Message.received ∧
    (streamEnd s.recvs = StreamEnd.eof →
      (onRelayCompleteCalls (Server.Relay s).trace).map Message.received =
        [((receivedMsgs s.recvs).getLast hN).received] ∧
      onRelayCompleteErrorCalls (Server.Relay s).trace = []) ∧
    (∀ e, streamEnd s.recvs = StreamEnd.err e →
      (onRelayCompleteErrorCalls (Server.Relay s).trace).map
          (fun p => (p.1.map Message.received, p.2)) =
        [(some ((receivedMsgs s.recvs).getLast hN).received, e)] ∧
      onRelayCompleteCalls (Server.Relay s).trace = []) ∧
    (streamEnd s.recvs ≠ StreamEnd.silent →
      (handedOver (Server.Relay s).trace).map Message.received =
        (receivedMsgs s.recvs).map Message.received) := by
  refine ⟨?_, fun hend => ⟨?_, ?_⟩, fun e hend => ⟨?_, ?_⟩, fun hend => ?_⟩
  · rw [onRelayCalls_Relay]
    exact relaysFrom_map Message.received Message.received relayedForm_received _ 1
  · rw [onRelayCompleteCalls_Relay, hend, List.getLast?_eq_getLast _ hN]
    simp [completedForm_received]
  · rw [onRelayCompleteErrorCalls_Relay, hend]
    simp [StreamEnd.failure]
  · rw [onRelayCompleteErrorCalls_Relay, hend, List.getLast?_eq_getLast _ hN]
    simp [StreamEnd.failure, Message.received]
  · rw [onRelayCompleteCalls_Relay, hend]
    simp
  · exact handedOver_received s hend

/-- Witness of C18: three envelopes and a receive error. -/
theorem relay_no_loss_no_duplication_witness :
    receivedMsgs (failingStream
      [sampleMessage "a" "p" "100", sampleMessage "b" "q" "100", sampleMessage "c" "r" "100"]
      { text := "reset" } []).recvs ≠ [] ∧
    (handedOver (Server.Relay (failingStream
      [sampleMessage "a" "p" "100", sampleMessage "b" "q" "100", sampleMessage "c" "r" "100"]
      { text := "reset" } [])).trace).map Message.received =
      [(sampleMessage "a" "p" "100").received, (sampleMessage "b" "q" "100").received,
       (sampleMessage "c" "r" "100").received] :=
  ⟨by decide,
   (relay_no_loss_no_duplication (failingStream
      [sampleMessage "a" "p" "100", sampleMessage "b" "q" "100", sampleMessage "c" "r" "100"]
      { text := "reset" } []) (by decide)).2.2.2 (by decide)⟩

/-! ## The relay link: claims -/

theorem closeSendCalls_steps (E : Message) (produced : List Message) (tail : List LinkEvent) :
    closeSendCalls ([LinkEvent.openStream E, LinkEvent.process E.BusinessMessage] ++
      produced.map LinkEvent.send ++ tail) = closeSendCalls tail := by
  have hp : List.count LinkEvent.closeSend (produced.map LinkEvent.send) = 0 := by
    rw [List.count_eq_zero]
    simp
  simp [closeSendCalls, List.count_append, hp, List.count_cons]

theorem produced_of_err (r : ProcessorResult) (e : ProcessorError) (h : r.err = some e) :
    r.produced = [] := by
  cases r with
  | forwarded p => simp [ProcessorResult.err] at h
  | failed e' => rfl

/-- C16, a processing error is forwarded, not raised: when the processor
returns a processing error for the inbound envelope `E`, `Link.OnRelay` sets
`errorType = PROCESSING` on `E` itself, leaves its consumption id as it was,
sends exactly one envelope on the outbound stream it has opened with `E`, the
flagged `E`, and closes the send side, once, as the last step. -/
theorem link_processing_error (proc : Option BusinessMessage → ProcessorResult)
    (E : Message) (cause : GoError)
    (herr : (proc E.BusinessMessage).err = some (ProcessorError.processing cause)) :
    (Link.OnRelay proc E).envelope = { E with ErrorType := ErrorType.PROCESSING } ∧
    (Link.OnRelay proc E).envelope.Consumption_ID = E.Consumption_ID ∧
    sentOn (Link.OnRelay proc E).trace = [{ E with ErrorType := ErrorType.PROCESSING }] ∧
    closeSendCalls (Link.OnRelay proc E).trace = 1 ∧
    (Link.OnRelay proc E).trace =
      [LinkEvent.openStream E, LinkEvent.process E.BusinessMessage,
       LinkEvent.send { E with ErrorType := ErrorType.PROCESSING }, LinkEvent.closeSend] := by
  have hnone := produced_of_err _ _ herr
  have hrun : Link.OnRelay proc E =
      { trace := [LinkEvent.openStream E, LinkEvent.process E.BusinessMessage,
          LinkEvent.send { E with ErrorType := ErrorType.PROCESSING }, LinkEvent.closeSend],
        envelope := { E with ErrorType := ErrorType.PROCESSING } } := by
    simp only [Link.OnRelay, herr, hnone]
    rfl
  rw [hrun]
  exact ⟨rfl, rfl, rfl, rfl, rfl⟩

/-- Witness of C16, the test `TestOnRelayProcessingError`: payload "test",
consumption id "200", service "abc"/"1.0.0"; the one envelope sent is the
inbound one, flagged `PROCESSING`, with consumption id "200". -/
theorem link_processing_error_witness :
    (testProcReturnProcessingError (testMessage "200").BusinessMessage).err =
      some (ProcessorError.processing { text := "test-processing-error" }) ∧
    sentOn (Link.OnRelay testProcReturnProcessingError (testMessage "200")).trace =
      [{ testMessage "200" with ErrorType := ErrorType.PROCESSING }] ∧
    closeSendCalls (Link.OnRelay testProcReturnProcessingError (testMessage "200")).trace = 1 :=
  ⟨rfl,
   (link_processing_error testProcReturnProcessingError (testMessage "200")
      { text := "test-processing-error" } rfl).2.2.1,
   (link_processing_error testProcReturnProcessingError (testMessage "200")
      { text := "test-processing-error" } rfl).2.2.2.1⟩

theorem openedWith_sends (produced : List Message) :
    openedWith (produced.map LinkEvent.send) = [] := by
  induction produced with
  | nil => rfl
  | cons m rest _ => simp [openedWith]

theorem processorCalls_sends (produced : List Message) :
    processorCalls (produced.map LinkEvent.send) = [] := by
  induction produced with
  | nil => rfl
  | cons m rest _ => simp [processorCalls]

theorem openedWith_steps (E : Message) (produced : List Message) (tail : List LinkEvent) :
    openedWith ([LinkEvent.openStream E, LinkEvent.process E.BusinessMessage] ++
      produced.map LinkEvent.send ++ tail) = E :: openedWith tail := by
  have h := openedWith_sends produced
  simp only [openedWith] at h ⊢
  simp [List.filterMap_append, h]

theorem processorCalls_steps (E : Message) (produced : List Message)
    (tail : List LinkEvent) :
    processorCalls ([LinkEvent.openStream E, LinkEvent.process E.BusinessMessage] ++
      produced.map LinkEvent.send ++ tail) = E.BusinessMessage :: processorCalls tail := by
  have h := processorCalls_sends produced
  simp only [processorCalls] at h ⊢
  simp [List.filterMap_append, h]

/-- The shape of every run of `Link.OnRelay`: open, process, the sends of the
producer, and a tail that closes the send side, after the send of the flagged
envelope when there is one. -/
theorem OnRelay_shape (proc : Option BusinessMessage → ProcessorResult) (E : Message) :
    ∃ tail, (Link.OnRelay proc E).trace =
        [LinkEvent.openStream E, LinkEvent.process E.BusinessMessage] ++
          (proc E.BusinessMessage).produced.map LinkEvent.send ++ tail ∧
      (tail = [LinkEvent.closeSend] ∨
        tail = [LinkEvent.send { E with ErrorType := ErrorType.PROCESSING },
          LinkEvent.closeSend]) := by
  cases h : (proc E.BusinessMessage).err with
  | none => exact ⟨[LinkEvent.closeSend], by simp only [Link.OnRelay, h], Or.inl rfl⟩
  | some e =>
    cases e with
    | processing c =>
      exact ⟨[LinkEvent.send { E with ErrorType := ErrorType.PROCESSING },
        LinkEvent.closeSend], by simp only [Link.OnRelay, h], Or.inr rfl⟩
    | raw c => exact ⟨[LinkEvent.closeSend], by simp only [Link.OnRelay, h], Or.inl rfl⟩

/-- C17, the success path sends nothing by itself: `Link.OnRelay` opens one
outbound stream, seeded with the inbound envelope `E`, invokes the processor
once, with the business message of `E`, and closes the send side once; when
the processor returns nil and has not called the producer, no envelope is sent
and `E` is left as it was. -/
theorem link_success_sends_nothing (proc : Option BusinessMessage → ProcessorResult)
    (E : Message) :
    openedWith (Link.OnRelay proc E).trace = [E] ∧
    processorCalls (Link.OnRelay proc E).trace = [E.BusinessMessage] ∧
    closeSendCalls (Link.OnRelay proc E).trace = 1 ∧
    ((proc E.BusinessMessage).err = none → (proc E.BusinessMessage).produced = [] →
      (Link.OnRelay proc E).trace =
        [LinkEvent.openStream E, LinkEvent.process E.BusinessMessage, LinkEvent.closeSend] ∧
      sentOn (Link.OnRelay proc E).trace = [] ∧
      (Link.OnRelay proc E).envelope = E) := by
  obtain ⟨tail, htr, htail⟩ := OnRelay_shape proc E
  refine ⟨?_, ?_, ?_, fun herr hnone => ?_⟩
  · rw [htr, openedWith_steps]
    rcases htail with h | h <;> rw [h] <;> rfl
  · rw [htr, processorCalls_steps]
    rcases htail with h | h <;> rw [h] <;> rfl
  · rw [htr, closeSendCalls_steps]
    rcases htail with h | h <;> rw [h] <;> rfl
  · have hrun : Link.OnRelay proc E =
        { trace := [LinkEvent.openStream E, LinkEvent.process E.BusinessMessage,
            LinkEvent.closeSend], envelope := E } := by
      simp only [Link.OnRelay, herr, hnone]
      rfl
    rw [hrun]
    exact ⟨rfl, rfl, rfl⟩

/-- Witness of C17, the test `TestOnRelayNoErrors`: payload "test", consumption
id "100"; nothing is sent and the send side is closed. -/
theorem link_success_sends_nothing_witness :
    (testProc (testMessage "100").BusinessMessage).err = none ∧
    (testProc (testMessage "100").BusinessMessage).produced = [] ∧
    sentOn (Link.OnRelay testProc (testMessage "100")).trace = [] ∧
    closeSendCalls (Link.OnRelay testProc (testMessage "100")).trace = 1 ∧
    processorCalls (Link.OnRelay testProc (testMessage "100")).trace =
      [some { Payload := some { Body := [116, 101, 115, 116] } }] :=
  ⟨rfl, rfl,
   ((link_success_sends_nothing testProc (testMessage "100")).2.2.2 rfl rfl).2.1,
   (link_success_sends_nothing testProc (testMessage "100")).2.2.1,
   (link_success_sends_nothing testProc (testMessage "100")).2.1⟩

/-! ## The loop invariant -/

theorem loopState_cons (rest : List Message) :
    ∀ (c : Nat) (last : Option Message) (m : Message),
      loopState c last (m :: rest) =
        ((c + 1 + rest.length) % uint64Size,
          some { newest m rest with SequenceTerm := (c + 1 + rest.length) % uint64Size }) := by
  induction rest with
  | nil => intro c last m; simp [loopState, newest]
  | cons a r ih =>
    intro c last m
    have h := ih ((c + 1) % uint64Size)
      (some { m with SequenceTerm := (c + 1) % uint64Size }) a
    have e1 : (c + 1) % uint64Size + 1 + r.length = (c + 1) % uint64Size + (1 + r.length) := by
      omega
    have e2 : c + 1 + (1 + r.length) = c + 1 + (r.length + 1) := by omega
    rw [e1, Nat.mod_add_mod, e2] at h
    rw [loopState, h]
    simp [newest]

theorem loopState_start (ms : List Message) :
    loopState 0 none ms =
      (ms.length % uint64Size,
        ms.getLast?.map (fun m => { m with SequenceTerm := ms.length % uint64Size })) := by
  cases ms with
  | nil => simp [loopState, Nat.zero_mod]
  | cons m rest =>
    rw [loopState_cons, getLast?_cons_newest]
    simp [Nat.add_comm]

theorem relayLoop_append (ms : List Message) (rest : List RecvResult) :
    ∀ (sends : List (Option GoError)) (c : Nat) (last : Option Message),
      (Server.relayLoop (ms.map RecvResult.msg ++ rest) sends c last).trace =
        (Server.relayLoop (ms.map RecvResult.msg) sends c last).trace ++
          (Server.relayLoop rest (sends.drop ms.length) (loopState c last ms).1
            (loopState c last ms).2).trace := by
  induction ms with
  | nil => intro sends c last; simp [relayLoop_nil, loopState]
  | cons m ms ih =>
    intro sends c last
    have h := ih sends.tail ((c + 1) % uint64Size)
      (some { m with SequenceTerm := (c + 1) % uint64Size })
    have hd : sends.tail.drop ms.length = sends.drop (ms.length + 1) := by
      cases sends <;> simp
    rw [hd] at h
    simp only [List.map_cons, List.cons_append, relayLoop_msg, List.length_cons, loopState, h,
      List.append_assoc]

theorem processOnRelay_eq_unguarded (msg : Message) (last : Option Message) (c : Nat)
    (hc : 1 < c) :
    Server.processOnRelay msg last c = Server.processOnRelayUnguarded msg last c := by
  cases last with
  | none => rfl
  | some l => simp [Server.processOnRelay, Server.processOnRelayUnguarded, hc]

theorem relayLoop_eq_unguarded (recvs : List RecvResult) :
    ∀ (sends : List (Option GoError)) (k : Nat) (l : Message),
      1 ≤ k → k + (receivedMsgs recvs).length < 2 ^ 64 →
      Server.relayLoop recvs sends (k % uint64Size)
          (some { l with SequenceTerm := k % uint64Size }) =
        Server.relayLoopUnguarded recvs sends (k % uint64Size)
          (some { l with SequenceTerm := k % uint64Size }) := by
  induction recvs with
  | nil => intro sends k l _ _; simp [Server.relayLoop, Server.relayLoopUnguarded]
  | cons r rest ih =>
    intro sends k l hk hlen
    cases r with
    | eof => simp [Server.relayLoop, Server.relayLoopUnguarded]
    | err e => simp [Server.relayLoop, Server.relayLoopUnguarded]
    | msg m =>
      simp only [receivedMsgs, List.length_cons] at hlen
      have hmod : (k + 1) % uint64Size = k + 1 :=
        Nat.mod_eq_of_lt (by unfold uint64Size; omega)
      have hg : 1 < (k + 1) % uint64Size := by rw [hmod]; omega
      have h := ih sends.tail (k + 1) m (by omega) (by omega)
      simp only [Server.relayLoop, Server.relayLoopUnguarded, Nat.mod_add_mod, if_true,
        processOnRelay_eq_unguarded _ _ _ hg, h]

theorem Relay_eq_unguarded (s : Stream) (hN : (receivedMsgs s.recvs).length < 2 ^ 64) :
    Server.Relay s = Server.RelayUnguarded s := by
  obtain ⟨recvs, sends⟩ := s
  cases recvs with
  | nil => simp [Server.Relay, Server.RelayUnguarded, Server.relayLoop, Server.relayLoopUnguarded]
  | cons r rest =>
    cases r with
    | eof =>
      simp [Server.Relay, Server.RelayUnguarded, Server.relayLoop, Server.relayLoopUnguarded]
    | err e =>
      simp [Server.Relay, Server.RelayUnguarded, Server.relayLoop, Server.relayLoopUnguarded]
    | msg m =>
      simp only [receivedMsgs, List.length_cons] at hN
      have h := relayLoop_eq_unguarded rest sends.tail 1 m (by omega) (by omega)
      have h0 : (0 + 1) % uint64Size = 1 % uint64Size := rfl
      simp only [Server.Relay, Server.RelayUnguarded, Server.relayLoop,
        Server.relayLoopUnguarded, if_true, Server.processOnRelay,
        Server.processOnRelayUnguarded, h0, h]

/-- C19, as amended: let `ms` be the envelopes received so far, fewer than
`2 ^ 64`.  The loop starts its next iteration in the state `loopState 0 none ms`;
there the pending envelope `last` is absent exactly when `msgCount = 0`,
`msgCount` is the number of envelopes received, and `last`, when present, is
the newest of them with `sequenceTerm = msgCount`.  So when that iteration
receives a further envelope, still fewer than `2 ^ 64` in all, and an envelope
is pending, `processOnRelay` is called with `msgCount > 1` and does what the
function without the guard does; and on every stream of fewer than `2 ^ 64`
envelopes `Server.Relay` is `Server.Relay` with the guard removed. -/
theorem relay_loop_invariant (ms : List Message) (hN : ms.length < 2 ^ 64) :
    (∀ (rest : List RecvResult) (sends : List (Option GoError)),
      (Server.Relay { recvs := ms.map RecvResult.msg ++ rest, sends := sends }).trace =
        (Server.Relay { recvs := ms.map RecvResult.msg, sends := sends }).trace ++
          (Server.relayLoop rest (sends.drop ms.length) (loopState 0 none ms).1
            (loopState 0 none ms).2).trace) ∧
    ((loopState 0 none ms).2 = none ↔ (loopState 0 none ms).1 = 0) ∧
    (loopState 0 none ms).1 = ms.length ∧
    (loopState 0 none ms).2 =
      ms.getLast?.map (fun m => { m with SequenceTerm := ms.length }) ∧
    (ms ≠ [] → ms.length + 1 < 2 ^ 64 →
      1 < ((loopState 0 none ms).1 + 1) % uint64Size ∧
      ∀ msg, Server.processOnRelay msg (loopState 0 none ms).2
          (((loopState 0 none ms).1 + 1) % uint64Size) =
        Server.processOnRelayUnguarded msg (loopState 0 none ms).2
          (((loopState 0 none ms).1 + 1) % uint64Size)) ∧
    (∀ s : Stream, receivedMsgs s.recvs = ms → Server.Relay s = Server.RelayUnguarded s) := by
  have hmod : ms.length % uint64Size = ms.length := mod_uint64Size_of_lt _ hN
  have hst : loopState 0 none ms =
      (ms.length, ms.getLast?.map (fun m => { m with SequenceTerm := ms.length })) := by
    rw [loopState_start, hmod]
  refine ⟨fun rest sends => relayLoop_append ms rest sends 0 none, ?_, ?_, ?_, ?_, ?_⟩
  · rw [hst]
    cases ms with
    | nil => simp
    | cons m rest => simp [getLast?_cons_newest]
  · rw [hst]
  · rw [hst]
  · intro hne hlt
    have hg : 1 < ((loopState 0 none ms).1 + 1) % uint64Size := by
      rw [hst]
      have hpos : 0 < ms.length := List.length_pos.mpr hne
      have hm1 : (ms.length + 1) % uint64Size = ms.length + 1 := mod_uint64Size_of_lt _ hlt
      show 1 < (ms.length + 1) % uint64Size
      rw [hm1]
      omega
    exact ⟨hg, fun msg => processOnRelay_eq_unguarded msg _ _ hg⟩
  · intro s hs
    exact Relay_eq_unguarded s (by rw [hs]; exact hN)

/-- Witness of C19 on two received envelopes. -/
theorem relay_loop_invariant_witness :
    [sampleMessage "a" "p" "100", sampleMessage "b" "p" "100"].length < 2 ^ 64 ∧
    (loopState 0 none [sampleMessage "a" "p" "100", sampleMessage "b" "p" "100"]).1 = 2 ∧
    Server.Relay (cleanStream [sampleMessage "a" "p" "100", sampleMessage "b" "p" "100"] []) =
      Server.RelayUnguarded
        (cleanStream [sampleMessage "a" "p" "100", sampleMessage "b" "p" "100"] []) :=
  ⟨by decide,
   (relay_loop_invariant [sampleMessage "a" "p" "100", sampleMessage "b" "p" "100"]
      (by decide)).2.2.1,
   (relay_loop_invariant [sampleMessage "a" "p" "100", sampleMessage "b" "p" "100"]
      (by decide)).2.2.2.2.2
      (cleanStream [sampleMessage "a" "p" "100", sampleMessage "b" "p" "100"] []) rfl⟩

/-- Counterexample to C19 as stated: after the `2 ^ 64` envelopes of the
wrapping stream the loop starts its iteration with `msgCount = 0` and a pending
envelope; and the envelope received in position `2 ^ 64 - 1` was dispatched by
a call of `processOnRelay` with `msgCount = 0`, whose guard kept the metadata
from being written: it reaches `OnRelay` with the nil map it arrived with. -/
theorem relay_loop_invariant_wrap :
    (loopState 0 none (receivedMsgs wrappingStream.recvs)).1 = 0 ∧
    (loopState 0 none (receivedMsgs wrappingStream.recvs)).2 ≠ none ∧
    ∃ d, (onRelayCalls (Server.Relay wrappingStream).trace)[2 ^ 64 - 2]? = some d ∧
      d.MetaData = none := by
  have hlen := length_wrappingStream
  have hne : receivedMsgs wrappingStream.recvs ≠ [] := by
    intro h
    rw [h] at hlen
    exact absurd hlen.symm (Nat.pos_iff_ne_zero.mp uint64Size_pos)
  have hst := loopState_start (receivedMsgs wrappingStream.recvs)
  rw [hlen, Nat.mod_self] at hst
  have hm : (receivedMsgs wrappingStream.recvs)[2 ^ 64 - 2]? = some
      { UUID := "a", Parent_UUID := "p", Pattern := none, BusinessMessage := none,
        SequenceTerm := 0, SequenceUpperBound := 0, ErrorType := ErrorType.NONE,
        Consumption_ID := "100", MetaData := none } := by
    unfold wrappingStream
    rw [receivedMsgs_cleanStream]
    exact List.getElem?_replicate_of_lt (by decide)
  have hnext : 2 ^ 64 - 2 + 1 < (receivedMsgs wrappingStream.recvs).length := by
    rw [hlen]
    decide
  have hd := onRelayCalls_getElem? wrappingStream (2 ^ 64 - 2) _ hm hnext
  refine ⟨by rw [hst], ?_, _, hd, by decide⟩
  rw [hst]
  cases hg : (receivedMsgs wrappingStream.recvs).getLast? with
  | none => exact absurd (List.getLast?_eq_none_iff.mp hg) hne
  | some m => simp

end Relay
